import Mathlib

/-
Verification development for the PLink link-diagram editor
(module plink_src/editor.py).

The diagram state and every editor operation used below are shallow
embeddings of the Python source.  Python floats are modelled by rational
numbers.  Vertices and arrows are mutable shared objects in the source;
they are modelled by an arena of integer handles (vstore / astore) next
to the two display lists self.Vertices and self.Arrows, which hold
handles in list order.

The repository files vertex.py, arrow.py, crossings.py and manager.py are
not part of src; the definitions that stand for their code are marked
with a doc comment starting with: Modelled from the spec.
-/

set_option allowUnsafeReducibility true
attribute [local semireducible] Rat.mul Rat.add Rat.sub Rat.inv

namespace PLink

/-- Points of the drawing plane.  The Python coordinates are floats; the
model uses rational numbers. -/
structure Pt where
  x : ℚ
  y : ℚ
deriving DecidableEq

/-- Modelled from the spec: the tolerance constant used by the hit radius
and the genericity checks (Arrow.epsilon in the missing arrow.py; the
spec calls it the tolerance epsilon).  Its concrete value is not in
src/editor.py; the model fixes it at 8. -/
def eps : ℚ := 8

/-- Componentwise difference of two points. -/
def psub (p q : Pt) : Pt := ⟨p.x - q.x, p.y - q.y⟩

/-- The planar cross product (determinant) of two vectors. -/
def crossProd (p q : Pt) : ℚ := p.x * q.y - p.y * q.x

/-- The dot product of two vectors. -/
def dotProd (p q : Pt) : ℚ := p.x * q.x + p.y * q.y

/-- Squared euclidean distance of two points. -/
def dist2 (p q : Pt) : ℚ := (p.x - q.x) ^ 2 + (p.y - q.y) ^ 2

/-- Modelled from the spec: Vertex equality in the source compares
positions up to the hit-radius tolerance (Vertex.__eq__ in the missing
vertex.py; the spec gives every vertex a hit-radius tolerance and forbids
two vertices to coincide within epsilon). -/
def vhit (p q : Pt) : Bool := dist2 p q < eps ^ 2

/-- Modelled from the spec, section 4.2 (the intersection code lives in
the missing arrow.py and crossings.py): both segments are parametrized,
the two parameters are solved via the cross-product determinant, and the
crossing is proper only if both parameters lie strictly inside (0, 1) and
the computed point is farther than the tolerance from every vertex.
Returns the parameter on the first segment and the intersection point.
This helper takes the two solved parameters and applies the open-interval
and tolerance conditions. -/
def pintAux (verts : List Pt) (p1 p2 : Pt) (t u : ℚ) : Option (ℚ × Pt) :=
  if 0 < t ∧ t < 1 ∧ 0 < u ∧ u < 1 then
    if verts.all (fun v =>
        decide (eps ^ 2 < dist2 ⟨p1.x + t * (p2.x - p1.x), p1.y + t * (p2.y - p1.y)⟩ v)) then
      some (t, ⟨p1.x + t * (p2.x - p1.x), p1.y + t * (p2.y - p1.y)⟩)
    else none
  else none

/-- The solved-parameter form of the proper intersection test (see
pintAux above for the conditions): both parameters come from the
cross-product determinant parametrization. -/
def properInt (verts : List Pt) (p1 p2 q1 q2 : Pt) : Option (ℚ × Pt) :=
  if crossProd (psub p2 p1) (psub q2 q1) = 0 then none
  else
    pintAux verts p1 p2
      (crossProd (psub q1 p1) (psub q2 q1) / crossProd (psub p2 p1) (psub q2 q1))
      (crossProd (psub q1 p1) (psub p2 p1) / crossProd (psub p2 p1) (psub q2 q1))

/-- Squared distance from a point to a segment, via the clamped
orthogonal projection. -/
def distSeg2 (p a b : Pt) : ℚ :=
  if dotProd (psub b a) (psub b a) = 0 then dist2 p a
  else
    let t := dotProd (psub p a) (psub b a) / dotProd (psub b a) (psub b a)
    let tc := max 0 (min 1 t)
    dist2 p ⟨a.x + tc * (b.x - a.x), a.y + tc * (b.y - a.y)⟩

/-- Modelled from the spec: Arrow.too_close of the missing arrow.py.  A
point is too close to an arrow when it lies within the tolerance of the
segment, except when it coincides (up to the hit radius) with one of the
two endpoints of the arrow; the spec phrases this as an arrow passing
within epsilon of a vertex it does not terminate at. -/
def tooCloseSeg (p a b : Pt) (tol : ℚ) : Bool :=
  if vhit p a || vhit p b then false
  else distSeg2 p a b < tol ^ 2

/-- Vertex record: position, display color and the two optional arrow
references (editor.py reads and writes in_arrow and out_arrow). -/
structure Vtx where
  pos : Pt
  color : Nat
  in_arrow : Option Nat
  out_arrow : Option Nat
deriving DecidableEq

/-- Arrow record: start and end vertex handles plus the display color. -/
structure Arr where
  astart : Nat
  aend : Nat
  color : Nat
deriving DecidableEq

/-- Crossing record: the over arrow, the under arrow and the virtual
flag.  Equality of crossings in the source compares the unordered pair of
arrows; that comparison is the separate function cEq below. -/
structure Crx where
  over : Nat
  under : Nat
  is_virtual : Bool
deriving DecidableEq

/-- The three editor states of editor.py (self.state). -/
inductive EMode
  | start_state
  | drawing_state
  | dragging_state
deriving DecidableEq

/-- Runtime failures of the Python code on the corresponding input:
undefined local names (the r2 branch), attribute access on None, a failed
list index / list.index lookup, and a while loop that can never exit. -/
inductive Err
  | nameErrorR2
  | attrErrorNone
  | valueErrorIndex
  | nonTermination
deriving DecidableEq

/-- Lookup in an arena (association list of handles). -/
def lookA {α : Type} (l : List (Nat × α)) (i : Nat) : Option α :=
  match l with
  | [] => none
  | (j, a) :: rest => if j = i then some a else lookA rest i

/-- Pointwise update of one arena entry. -/
def setA {α : Type} (l : List (Nat × α)) (i : Nat) (f : α → α) : List (Nat × α) :=
  l.map (fun pr => if pr.1 = i then (pr.1, f pr.2) else pr)

/-- Removal of the first list element satisfying a test (Python
list.remove semantics). -/
def removeFirstP {α : Type} (p : α → Bool) : List α → List α
  | [] => []
  | a :: l => if p a then l else a :: removeFirstP p l

/-- The full editor state: the two object arenas, the lists
self.Vertices, self.Arrows and self.Crossings, the interaction state and
the mode flags of LinkEditor.__init__. -/
structure DState where
  vstore : List (Nat × Vtx)
  astore : List (Nat × Arr)
  Vertices : List Nat
  Arrows : List Nat
  Crossings : List Crx
  mode : EMode
  ActiveVertex : Option Nat
  saved_crossing_data : Option (List Nat × List Nat)
  lock_var : Bool
  under_mode : Bool
  vertex_mode : Bool
  r1_mode : Bool
  r2_mode : Bool
  r3_mode : Bool
  r2_crossings : List Pt
  r3_crossings : List Pt
  r3_helper_tuple : Option Bool
  cursor : Pt
  nextId : Nat
  nextColor : Nat
deriving DecidableEq

/-- The geometric view of a state: everything the crossing detector and
the genericity checks read, apart from the crossing list itself. -/
structure GView where
  vstore : List (Nat × Vtx)
  astore : List (Nat × Arr)
  vlist : List Nat
  alist : List Nat
deriving DecidableEq

/-- Projection of a state to its geometric view. -/
def DState.gview (s : DState) : GView :=
  ⟨s.vstore, s.astore, s.Vertices, s.Arrows⟩

/-- Vertex data for a handle, with an inert default for a dangling
handle (unreachable when the arena is complete). -/
def getVG (g : GView) (i : Nat) : Vtx :=
  (lookA g.vstore i).getD ⟨⟨0, 0⟩, 0, none, none⟩

/-- Position of a vertex handle. -/
def vposG (g : GView) (i : Nat) : Pt := (getVG g i).pos

/-- Arrow data for a handle. -/
def getAG (g : GView) (i : Nat) : Option Arr := lookA g.astore i

/-- Arrow data with an inert default (unreachable when the arena is
complete). -/
def getAD (g : GView) (i : Nat) : Arr := (getAG g i).getD ⟨0, 0, 0⟩

/-- The positions of the vertices of self.Vertices, in list order. -/
def vertexPts (g : GView) : List Pt := g.vlist.map (vposG g)

/-- The proper-intersection test between two arrows, on the current
geometry (the genericity condition consults every listed vertex). -/
def interAG (g : GView) (a b : Arr) : Option (ℚ × Pt) :=
  properInt (vertexPts g) (vposG g a.astart) (vposG g a.aend)
    (vposG g b.astart) (vposG g b.aend)

/-- State-level vertex data accessor. -/
def getV (s : DState) (i : Nat) : Vtx := getVG s.gview i

/-- State-level vertex position accessor. -/
def vpos (s : DState) (i : Nat) : Pt := vposG s.gview i

/-- State-level arrow accessor. -/
def getArr (s : DState) (i : Nat) : Option Arr := getAG s.gview i

/-- Membership of an arrow in a crossing (Crossing.__contains__,
modelled from the spec: a crossing is a pair of arrows). -/
def cmem (i : Nat) (c : Crx) : Bool := i == c.over || i == c.under

/-- Modelled from the spec: Crossing.__eq__ of the missing crossings.py
compares the unordered pair of arrows of the two crossings. -/
def cEq (c d : Crx) : Bool :=
  (c.over == d.over && c.under == d.under) ||
  (c.over == d.under && c.under == d.over)

/-- Modelled from the spec: Crossing.reverse of the missing crossings.py
swaps the over and under designation of the crossing. -/
def reverseCrx (c : Crx) : Crx := { c with over := c.under, under := c.over }

/-- Modelled from the spec: Crossing.locate computes the intersection
point of the two arrows of the crossing on the current geometry, or None
when the intersection is no longer proper.  The list CrossPoints of the
missing manager.py is modelled by applying this to every stored
crossing. -/
def locateCrx (g : GView) (c : Crx) : Option Pt :=
  match getAG g c.over, getAG g c.under with
  | some a, some b => (interAG g a b).map (fun pr => pr.2)
  | _, _ => none

/-- One iteration of the for loop of LinkEditor.update_crossings
(editor.py lines 2079-2102): skip this_arrow itself, build the candidate
crossing with the orientation given by the one-shot r3 helper flag, the
under-mode flag or the default, then keep / append / remove according to
the located intersection.  The damage list only triggers redraws and has
no effect on the stored data. -/
def uc_step (g : GView) (um : Bool) (r3h : Option Bool) (ta : Nat) (A : Arr)
    (cross_list : List Crx) (cs : List Crx) (aid : Nat) : List Crx :=
  if aid = ta then cs
  else
    let pair : Crx :=
      if (match r3h with | some b => b | none => false) then ⟨aid, ta, false⟩
      else if um = false then ⟨ta, aid, false⟩
      else ⟨aid, ta, false⟩
    match interAG g A (getAD g aid) with
    | some _ => if cross_list.any (cEq pair) then cs else cs ++ [pair]
    | none => if cs.any (cEq pair) then removeFirstP (cEq pair) cs else cs

/-- The crossing-list diff pass of LinkEditor.update_crossings (editor.py
lines 2070-2104) on an explicit geometry: the snapshot cross_list of the
crossings involving this_arrow is taken first, then every other arrow of
self.Arrows is compared against this_arrow. -/
def uc_run (g : GView) (um : Bool) (r3h : Option Bool) (ta : Nat)
    (cs : List Crx) : List Crx :=
  match lookA g.astore ta with
  | none => cs
  | some A =>
    let cross_list := cs.filter (cmem ta)
    g.alist.foldl (uc_step g um r3h ta A cross_list) cs

/-- Translation of LinkEditor.update_crossings (editor.py lines
2070-2104).  A None argument returns at once (line 2074). -/
def update_crossings (s : DState) (tao : Option Nat) : DState :=
  match tao with
  | none => s
  | some ta =>
    { s with Crossings := uc_run s.gview s.under_mode s.r3_helper_tuple ta s.Crossings }

/-- Insertion of one parameter-index pair into a list sorted by the pair
order (the Python sorted builtin on tuples). -/
def insSorted (x : ℚ × Nat) : List (ℚ × Nat) → List (ℚ × Nat)
  | [] => [x]
  | y :: l =>
    if x.1 < y.1 ∨ (x.1 = y.1 ∧ x.2 ≤ y.2) then x :: y :: l else y :: insSorted x l

/-- Sorting of the parameter-index pairs collected by crossed_arrows. -/
def sortPairs (l : List (ℚ × Nat)) : List (ℚ × Nat) := l.foldr insSorted []

/-- Translation of LinkEditor.crossed_arrows (editor.py lines 2106-2121)
on an explicit geometry: the indices of the arrows of self.Arrows crossed
by the given arrow, in order of the intersection parameter along it;
arrows of the ignore list are skipped by object identity.  A None
argument yields the empty tuple. -/
def crossed_arrowsG (g : GView) (ao : Option Nat) (ignore : List (Option Nat)) : List Nat :=
  match ao with
  | none => []
  | some ai =>
    match getAG g ai with
    | none => []
    | some A =>
      let cl := g.alist.enum.filterMap (fun pr =>
        if pr.2 = ai ∨ (some pr.2) ∈ ignore then none
        else match interAG g A (getAD g pr.2) with
             | some tp => some (tp.1, pr.1)
             | none => none)
      (sortPairs cl).map (fun pr => pr.2)

/-- State-level wrapper for crossed_arrows. -/
def crossed_arrows (s : DState) (ao : Option Nat) (ignore : List (Option Nat)) : List Nat :=
  crossed_arrowsG s.gview ao ignore

/-- Translation of LinkEditor.active_crossing_data (editor.py lines
1800-1809) on an explicit geometry and active vertex: the pair of index
tuples crossed by the in and out arrows of the active vertex, both
ignoring those two arrows. -/
def acdG (g : GView) (av : Option Nat) : List Nat × List Nat :=
  match av with
  | none => ([], [])
  | some v =>
    let ig := [(getVG g v).in_arrow, (getVG g v).out_arrow]
    (crossed_arrowsG g (getVG g v).in_arrow ig,
     crossed_arrowsG g (getVG g v).out_arrow ig)

/-- State-level wrapper for active_crossing_data.  The source asserts
that the active vertex is present; the model returns the empty pair on
the unreachable None case. -/
def active_crossing_data (s : DState) : List Nat × List Nat :=
  acdG s.gview s.ActiveVertex

/-- Translation of LinkEditor.move_is_ok (editor.py lines 1811-1812):
the current crossing data equals the saved snapshot (a None snapshot
compares unequal to any tuple, as in Python). -/
def move_is_ok (s : DState) : Bool :=
  s.saved_crossing_data == some (active_crossing_data s)

/-- Translation of LinkEditor.generic_vertex (editor.py lines 2025-2032):
the point of the vertex must not coincide with a different vertex of
self.Vertices and must not be too close (tolerance epsilon + 2) to any
arrow; the too-close test itself exempts the arrows terminating at the
point. -/
def generic_vertex (g : GView) (selfId : Option Nat) (p : Pt) : Bool :=
  (!(g.vlist.any (fun v => (some v != selfId) && vhit p (vposG g v)))) &&
  (g.alist.all (fun a =>
    let A := getAD g a
    !(tooCloseSeg p (vposG g A.astart) (vposG g A.aend) (eps + 2))))

/-- Translation of LinkEditor.generic_arrow (editor.py lines 2034-2059):
None passes at once; otherwise the arrow must not be too close to any
vertex of self.Vertices, nor to the located point of any crossing it is
not part of.  The lock-mode oval marker is display only. -/
def generic_arrow (g : GView) (cs : List Crx) (ao : Option Nat) : Bool :=
  match ao with
  | none => true
  | some ai =>
    match getAG g ai with
    | none => true
    | some A =>
      (g.vlist.all (fun v =>
        !(tooCloseSeg (vposG g v) (vposG g A.astart) (vposG g A.aend) eps))) &&
      (cs.all (fun c =>
        if cmem ai c then true
        else match locateCrx g c with
             | some q => !(tooCloseSeg q (vposG g A.astart) (vposG g A.aend) eps)
             | none => true))

/-- Translation of LinkEditor.destroy_arrow (editor.py lines 2061-2068):
remove the arrow from self.Arrows, clear the in reference of its end and
the out reference of its start, and purge every crossing containing it. -/
def destroy_arrow (s : DState) (ai : Nat) : DState :=
  let s1 := { s with Arrows := removeFirstP (fun j => j == ai) s.Arrows }
  let s2 :=
    match getArr s ai with
    | none => s1
    | some A =>
      let st := setA (setA s1.vstore A.aend (fun d => { d with in_arrow := none }))
        A.astart (fun d => { d with out_arrow := none })
      { s1 with vstore := st }
  { s2 with Crossings := s2.Crossings.filter (fun c => !(cmem ai c)) }

/-- Update of the position of one vertex (assignment to active.x and
active.y in the source). -/
def setVpos (s : DState) (v : Nat) (p : Pt) : DState :=
  { s with vstore := setA s.vstore v (fun d => { d with pos := p }) }

/-- Translation of LinkEditor.verify_drag (editor.py lines 1933-1940):
recompute the crossings of the in and out arrows of the active vertex,
then check both for genericity.  The boolean is the return value; the
state carries the crossing-list mutations, which the source performs even
when the check fails.  The None active case cannot occur in the source
(verify_drag is only called while dragging). -/
def verify_drag (s : DState) : DState × Bool :=
  match s.ActiveVertex with
  | none => (s, false)
  | some v =>
    let s1 := update_crossings s (getV s v).in_arrow
    let s3 := update_crossings s1 (getV s1 v).out_arrow
    (s3, generic_arrow s3.gview s3.Crossings (getV s3 v).in_arrow &&
         generic_arrow s3.gview s3.Crossings (getV s3 v).out_arrow)

/-- Translation of LinkEditor.move_active (editor.py lines 1814-1861).
In lock mode the tentative position is kept only when the crossing data
matches the snapshot and both genericity checks pass; otherwise the
position is restored (the crossing-list mutations of a failed verify_drag
are not restored, as in the source).  Unlocked mode applies the position
unconditionally.  Canvas markers, cursor attachment and redraws are
display only. -/
def move_active (s : DState) (x y : ℚ) : DState :=
  match s.ActiveVertex with
  | none => s
  | some v =>
    if s.lock_var then
      let p0 := vpos s v
      let s1 := setVpos s v ⟨x, y⟩
      if move_is_ok s1 then
        if !(generic_vertex s1.gview (some v) (vpos s1 v)) then setVpos s1 v p0
        else
          let vr := verify_drag s1
          if !vr.2 then setVpos vr.1 v p0 else vr.1
      else setVpos s1 v p0
    else setVpos s v ⟨x, y⟩

/-- Creation of a fresh vertex object in the arena (the Vertex
constructor); it is not placed on self.Vertices, which every call site
does explicitly. -/
def newVertex (s : DState) (p : Pt) (color : Nat) : DState × Nat :=
  let vi := s.nextId
  ({ s with nextId := vi + 1, vstore := s.vstore ++ [(vi, ⟨p, color, none, none⟩)] }, vi)

/-- Modelled from the spec: the Arrow constructor of the missing
arrow.py.  It records the two endpoint vertices and, matching the
structural invariant that following out references traces the component
(section 3 of the spec, maintained on creation), sets the out reference
of the start vertex and the in reference of the end vertex to the new
arrow.  The arrow is not placed on self.Arrows; every call site appends
it explicitly. -/
def newArrow (s : DState) (u v color : Nat) : DState × Nat :=
  let ai := s.nextId
  let st := setA (setA s.vstore u (fun d => { d with out_arrow := some ai }))
    v (fun d => { d with in_arrow := some ai })
  ({ s with nextId := ai + 1, vstore := st, astore := s.astore ++ [(ai, ⟨u, v, color⟩)] }, ai)

/-- Removal from self.Vertices of the first vertex whose position is
within the hit radius of the given point (Python list.remove with the
proximity equality of Vertex). -/
def removeVertexNear (s : DState) (q : Pt) : DState :=
  { s with Vertices := removeFirstP (fun v => vhit (vpos s v) q) s.Vertices }

/-- First vertex of self.Vertices hit by the click point
(self.Vertices.index with the proximity equality). -/
def hitVertex (g : GView) (p : Pt) : Option Nat :=
  g.vlist.find? (fun v => vhit p (vposG g v))

/-- Index of the first stored crossing whose located point is hit by the
click point (membership and index in self.CrossPoints).  A crossing
whose location no longer computes is skipped. -/
def crossIndex (g : GView) (cs : List Crx) (p : Pt) : Option Nat :=
  (cs.enum.find? (fun pr =>
    match locateCrx g pr.2 with
    | some q => vhit p q
    | none => false)).map (fun pr => pr.1)

/-- Translation of LinkEditor.clicked_on_arrow (editor.py lines
1893-1897). -/
def clicked_on_arrow (g : GView) (p : Pt) : Bool :=
  g.alist.any (fun a =>
    let A := getAD g a
    tooCloseSeg p (vposG g A.astart) (vposG g A.aend) eps)

/-- Modelled from the spec: Vertex.is_endpoint of the missing vertex.py;
the spec calls a vertex of an open component an endpoint vertex, so the
test is a missing in or out arrow. -/
def isEndpoint (g : GView) (v : Nat) : Bool :=
  ((getVG g v).in_arrow == none) || ((getVG g v).out_arrow == none)

/-- Loop body of get_over_arrow_path and get_under_arrow_path (editor.py
lines 970-982): while the stop arrow is not on the path, follow the out
reference at the end of the last arrow.  A missing out reference makes
the Python loop append None and crash on the next access; running out of
fuel models a loop that can never reach the stop arrow. -/
def arrow_path_go (g : GView) (stopA : Nat) (acc : List Nat) : Nat → Except Err (List Nat)
  | 0 => .error .nonTermination
  | fuel + 1 =>
    if stopA ∈ acc then .ok acc
    else
      match acc.getLast? with
      | none => .error .valueErrorIndex
      | some la =>
        match getAG g la with
        | none => .error .attrErrorNone
        | some A =>
          match (getVG g A.aend).out_arrow with
          | none => .error .attrErrorNone
          | some nxt => arrow_path_go g stopA (acc ++ [nxt]) fuel

/-- The path from one arrow of a crossing to the other, following out
references (get_over_arrow_path with the over arrow first, and
get_under_arrow_path with the under arrow first). -/
def arrow_path (g : GView) (startA stopA : Nat) : Except Err (List Nat) :=
  arrow_path_go g stopA [startA] (g.alist.length + 2)

/-- Translation of LinkEditor.over_under_has_crossings (editor.py lines
984-1001): scan every crossing other than the clicked one (removed once
by crossing equality) through the elif chain; the pair returned is
(no_crossings_over, no_crossings_under). -/
def over_under_has_crossings (cs : List Crx) (op up : List Nat) (clicked : Crx) : Bool × Bool :=
  let rest := removeFirstP (cEq clicked) cs
  rest.foldl (fun (b : Bool × Bool) c =>
    if c.under ∈ op then (false, b.2)
    else if c.over ∈ op then (false, b.2)
    else if c.under ∈ up then (b.1, false)
    else if c.over ∈ up then (b.1, false)
    else b) (true, true)

/-- Translation of LinkEditor.all_oriented (editor.py lines 1003-1024).
The source returns a pair (can_reduce, is_under); the pair collapses to
an Option: none for (False, None), some role otherwise, where a
crossing-free arrow receives the value of the global under-mode flag. -/
def all_oriented (cs : List Crx) (um : Bool) (aid : Nat) : Option Bool :=
  let flags := cs.foldl (fun (b : Bool × Bool) c =>
    if aid == c.under then (b.1, false)
    else if aid == c.over then (false, b.2)
    else b) (true, true)
  if flags.1 && flags.2 then some um
  else if flags.1 && !flags.2 then some true
  else if !flags.1 && flags.2 then some false
  else none

/-- Loop of LinkEditor.oriented_path (editor.py lines 1237-1251), with
the running default orientation made explicit. -/
def oriented_go (cs : List Crx) (um : Bool) (dflt : Option Bool) : List Nat → Bool
  | [] => true
  | a :: rest =>
    match all_oriented cs um a with
    | none => false
    | some b =>
      match dflt with
      | none => oriented_go cs um (some b) rest
      | some d => if b == d then oriented_go cs um dflt rest else false

/-- Translation of LinkEditor.oriented_path (editor.py lines
1237-1251). -/
def oriented_path (cs : List Crx) (um : Bool) (path : List Nat) : Bool :=
  oriented_go cs um none path

/-- Loop body of LinkEditor.get_path_btwn_verts (editor.py lines
1226-1235): follow out references from the first marker vertex until a
vertex equal (by proximity) to the second marker is reached.  A missing
out reference crashes the source on the next iteration; exhausted fuel
models the non-terminating while loop. -/
def path_btwn_go (g : GView) (v2 : Nat) (acc : List Nat) : Nat → Except Err (List Nat)
  | 0 => .error .nonTermination
  | fuel + 1 =>
    match acc.getLast? with
    | none => .error .valueErrorIndex
    | some la =>
      match getAG g la with
      | none => .error .attrErrorNone
      | some A =>
        if vhit (vposG g A.aend) (vposG g v2) then .ok acc
        else
          match (getVG g A.aend).out_arrow with
          | none => .error .attrErrorNone
          | some nxt => path_btwn_go g v2 (acc ++ [nxt]) fuel

/-- Translation of LinkEditor.get_path_btwn_verts (editor.py lines
1226-1235). -/
def get_path_btwn (g : GView) (v1 v2 : Nat) : Except Err (List Nat) :=
  match (getVG g v1).out_arrow with
  | none => .error .attrErrorNone
  | some a0 => path_btwn_go g v2 [a0] (g.alist.length + 2)

/-- Translation of LinkEditor.get_vertex_set (editor.py lines
1253-1264): the interior vertices of a path, a set modelled as a
duplicate-free list in first-insertion order. -/
def vertex_set (g : GView) (path : List Nat) : List Nat :=
  path.enum.foldl (fun acc pr =>
    match getAG g pr.2 with
    | none => acc
    | some A =>
      let adds : List Nat :=
        if pr.1 == 0 then [A.aend]
        else if pr.1 == path.length - 1 then [A.astart]
        else [A.astart, A.aend]
      adds.foldl (fun ac w => if w ∈ ac then ac else ac ++ [w]) acc) []

/-- One iteration of the destruction loop of the r1 branch (editor.py
lines 1349-1354 and 1377-1382): every arrow of the path is destroyed,
and the end vertex of every arrow but the last is removed from
self.Vertices (by proximity, as Python list.remove). -/
def r1_destroy_step (s : DState) (lastIdx : Nat) (pr : Nat × Nat) : DState :=
  let s1 :=
    if pr.1 == lastIdx then s
    else
      match getArr s pr.2 with
      | none => s
      | some A => removeVertexNear s (vpos s A.aend)
  destroy_arrow s1 pr.2

/-- Rebuild phase of the r1 branch (editor.py lines 1344-1399): destroy
the chosen loop, place the clicked point as a new vertex, and join the
recorded start and end with two fresh arrows of the recorded color. -/
def r1_rebuild (s : DState) (p : Pt) (path : List Nat) (ustart oend color : Nat) : DState :=
  let s1 := path.enum.foldl (fun st pr => r1_destroy_step st (path.length - 1) pr) s
  let nv := newVertex s1 p color
  let s2 := { nv.1 with Vertices := nv.1.Vertices ++ [nv.2] }
  let a1 := newArrow s2 ustart nv.2 color
  let a2 := newArrow a1.1 nv.2 oend color
  { a2.1 with Arrows := a2.1.Arrows ++ [a1.2, a2.2] }

/-- Translation of the r1 branch of single_click (editor.py lines
1337-1404): build both strand paths of the clicked crossing, test them
for interfering crossings, and reduce along the under strand, else the
over strand, else reject with a warning and no mutation. -/
def r1_click (s : DState) (p : Pt) (ci : Nat) : Except Err DState :=
  match s.Crossings.get? ci with
  | none => .error .valueErrorIndex
  | some c =>
    match arrow_path s.gview c.over c.under with
    | .error e => .error e
    | .ok op =>
      match arrow_path s.gview c.under c.over with
      | .error e => .error e
      | .ok up =>
        let flags := over_under_has_crossings s.Crossings op up c
        match getArr s c.over, getArr s c.under with
        | some O, some U =>
          if flags.2 then .ok (r1_rebuild s p up U.astart O.aend O.color)
          else if flags.1 then .ok (r1_rebuild s p op O.astart U.aend O.color)
          else .ok s
        | _, _ => .error .attrErrorNone

/-- Translation of the r3 branch of single_click (editor.py lines
1284-1302): record the click; on the second click resolve both marker
vertices, build the path between them, and if the oriented-path
precondition holds destroy the path arrows, drop the collected vertices
from self.Vertices and re-enter drawing state from the first marker.  A
failed precondition leaves the diagram untouched (and shows no warning);
the recorded clicks persist either way. -/
def r3_vertex_click (s : DState) (p : Pt) : Except Err DState :=
  let s0 := { s with r3_crossings := s.r3_crossings ++ [p] }
  if s0.r3_crossings.length == 2 then
    match s0.r3_crossings.get? 0, s0.r3_crossings.get? 1 with
    | some p1, some p2 =>
      match hitVertex s0.gview p1, hitVertex s0.gview p2 with
      | some v1, some v2 =>
        match get_path_btwn s0.gview v1 v2 with
        | .error e => .error e
        | .ok path =>
          if oriented_path s0.Crossings s0.under_mode path then
            let vset := vertex_set s0.gview path
            let s1 := path.foldl destroy_arrow s0
            let s2 := vset.foldl (fun st w => removeVertexNear st (vpos st w)) s1
            .ok { s2 with ActiveVertex := some v1, mode := .drawing_state }
          else .ok s0
      | _, _ => .error .valueErrorIndex
    | _, _ => .error .valueErrorIndex
  else .ok s0

/-- Walk forward along out references collecting arrows, stopping at a
missing reference or a repeated arrow (a closed component). -/
def fwdArrowsGo (g : GView) (acc : List Nat) (v : Nat) : Nat → List Nat
  | 0 => acc
  | fuel + 1 =>
    match (getVG g v).out_arrow with
    | none => acc
    | some a =>
      if a ∈ acc then acc
      else
        match getAG g a with
        | none => acc ++ [a]
        | some A => fwdArrowsGo g (acc ++ [a]) A.aend fuel

/-- Walk backward along in references collecting arrows. -/
def bwdArrowsGo (g : GView) (acc : List Nat) (v : Nat) : Nat → List Nat
  | 0 => acc
  | fuel + 1 =>
    match (getVG g v).in_arrow with
    | none => acc
    | some a =>
      if a ∈ acc then acc
      else
        match getAG g a with
        | none => acc ++ [a]
        | some A => bwdArrowsGo g (acc ++ [a]) A.astart fuel

/-- The arrows of the component through a vertex, in both directions. -/
def componentArrows (g : GView) (v : Nat) : List Nat :=
  let fw := fwdArrowsGo g [] v (g.alist.length + 1)
  let bw := bwdArrowsGo g [] v (g.alist.length + 1)
  fw ++ bw.filter (fun a => !(fw.contains a))

/-- Modelled from the spec: Vertex.reverse_path of the missing
vertex.py.  The orientation of the whole component through the vertex is
reversed: every arrow of the component swaps its start and end, and
every vertex touched by those arrows swaps its in and out references
(the spec: the target path is reversed so orientation is consistent). -/
def reverse_path (s : DState) (v : Nat) : DState :=
  let comp := componentArrows s.gview v
  let touched := comp.foldl (fun ac a =>
    match getArr s a with
    | none => ac
    | some A => ac ++ [A.astart, A.aend]) [v]
  let ast := s.astore.map (fun pr =>
    if pr.1 ∈ comp then (pr.1, Arr.mk pr.2.aend pr.2.astart pr.2.color) else pr)
  let vst := s.vstore.map (fun pr =>
    if pr.1 ∈ touched then
      (pr.1, Vtx.mk pr.2.pos pr.2.color pr.2.out_arrow pr.2.in_arrow)
    else pr)
  { s with astore := ast, vstore := vst }

/-- Modelled from the spec: Vertex.recolor_incoming of the missing
vertex.py recolors the sub-path feeding into the vertex (and the vertex
itself) with the given color, so a merged component is drawn in one
color. -/
def recolor_incoming (s : DState) (v : Nat) (color : Nat) : DState :=
  let comp := bwdArrowsGo s.gview [] v (s.Arrows.length + 1)
  let touched := comp.foldl (fun ac a =>
    match getArr s a with
    | none => ac
    | some A => ac ++ [A.astart, A.aend]) [v]
  let ast := s.astore.map (fun pr =>
    if pr.1 ∈ comp then (pr.1, Arr.mk pr.2.astart pr.2.aend color) else pr)
  let vst := s.vstore.map (fun pr =>
    if pr.1 ∈ touched then
      (pr.1, Vtx.mk pr.2.pos color pr.2.in_arrow pr.2.out_arrow)
    else pr)
  { s with astore := ast, vstore := vst }

/-- Modelled from the spec: Vertex.swallow of the missing vertex.py; per
the spec lifecycle a dragged endpoint vertex merges with the coincident
endpoint vertex, taking over its arrow on the free side (reversing the
other path first when it runs in the wrong direction) and recoloring the
absorbed part. -/
def swallow (s : DState) (act oth : Nat) : DState :=
  if (getV s act).in_arrow == none then
    let s1 := if (getV s oth).in_arrow == none then reverse_path s oth else s
    match (getV s1 oth).in_arrow with
    | none => s1
    | some a =>
      let s2 := { s1 with astore := setA s1.astore a (fun A => { A with aend := act }) }
      let s3 := { s2 with vstore := setA s2.vstore act (fun d => { d with in_arrow := some a }) }
      recolor_incoming s3 act (getV s3 act).color
  else
    let s1 := if (getV s oth).out_arrow == none then reverse_path s oth else s
    match (getV s1 oth).out_arrow with
    | none => s1
    | some a =>
      let s2 := { s1 with astore := setA s1.astore a (fun A => { A with astart := act }) }
      { s2 with vstore := setA s2.vstore act (fun d => { d with out_arrow := some a }) }

/-- Tail of LinkEditor.end_dragging_state (editor.py lines 2005-2023):
the endpoint merge, the remaining crossing updates, the genericity check
and the return to start state.  The boolean is false on the raised
ValueError. -/
def end_drag_rest (s : DState) (v : Nat) : DState × Bool :=
  let isep := isEndpoint s.gview v
  let merged :=
    if isep then
      s.Vertices.find? (fun w =>
        (w != v) && isEndpoint s.gview w && vhit (vpos s v) (vpos s w))
    else none
  let sA :=
    match merged with
    | some w =>
      let s1 := swallow s v w
      { s1 with Vertices := s1.Vertices.filter (fun u => u != w) }
    | none => s
  let sB :=
    if isep then
      let s3 := update_crossings sA (getV sA v).in_arrow
      update_crossings s3 (getV s3 v).out_arrow
    else sA
  if merged == none && !(generic_vertex sB.gview (some v) (vpos sB v)) then (sB, false)
  else ({ sB with mode := .start_state, ActiveVertex := none }, true)

/-- Translation of LinkEditor.end_dragging_state (editor.py lines
1942-2023).  The boolean is false when the source raises ValueError; the
state carries every mutation performed up to that point, including the
crossing updates of a failed verify_drag. -/
def end_dragging_state (s : DState) : DState × Bool :=
  let vr := verify_drag s
  if !vr.2 then (vr.1, false)
  else
    let s1 := vr.1
    let s2 :=
      if s1.lock_var then { s1 with saved_crossing_data := none }
      else
        match s1.ActiveVertex with
        | none => s1
        | some v => setVpos s1 v s1.cursor
    match s2.ActiveVertex with
    | none => (s2, false)
    | some v =>
      if s2.vertex_mode then
        let cl := crossed_arrows s2 (getV s2 v).in_arrow [(getV s2 v).in_arrow] ++
                  crossed_arrows s2 (getV s2 v).out_arrow [(getV s2 v).out_arrow]
        if cl.length != 2 then (s2, false) else end_drag_rest s2 v
      else end_drag_rest s2 v

/-- The dragging-state part of LinkEditor.double_click (editor.py lines
1713-1739): finish the drag, then enter drawing state from the clicked
endpoint (reversing its path when it points the wrong way), from the cut
point of a non-endpoint vertex, or from a dangling fresh vertex. -/
def double_click_drag (s : DState) (p : Pt) : DState :=
  let ed := end_dragging_state s
  if !ed.2 then ed.1
  else
    let s1 := ed.1
    match s1.Vertices.find? (fun w => isEndpoint s1.gview w && vhit p (vpos s1 w)) with
    | some _ =>
      match hitVertex s1.gview p with
      | none => s1
      | some w =>
        let s2 := if (getV s1 w).out_arrow != none then reverse_path s1 w else s1
        { s2 with ActiveVertex := some w, mode := .drawing_state }
    | none =>
      match hitVertex s1.gview p with
      | some w =>
        let s2 := recolor_incoming s1 w s1.nextColor
        let s2b := { s2 with nextColor := s2.nextColor + 1 }
        match (getV s2b w).in_arrow with
        | none => s2b
        | some ca =>
          let s3 := { s2b with vstore := setA s2b.vstore w (fun d => { d with in_arrow := none }) }
          match getArr s3 ca with
          | none => s3
          | some A => { s3 with ActiveVertex := some A.astart, mode := .drawing_state }
      | none =>
        let nv := newVertex s1 p 0
        { nv.1 with ActiveVertex := some nv.2, mode := .drawing_state }

/-- The dragging entry of single_click (editor.py lines 1304-1331): the
state machine switches to dragging, the clicked vertex becomes active,
the crossing signature is snapshotted, and an isolated vertex is handed
to double_click instead.  Freezing and the live preview arrows are
display only. -/
def drag_entry (s : DState) (p : Pt) (vid : Nat) : DState :=
  let s1 := { s with mode := .dragging_state, ActiveVertex := some vid }
  let s2 := { s1 with saved_crossing_data := some (active_crossing_data s1) }
  if ((getV s2 vid).in_arrow == none) && ((getV s2 vid).out_arrow == none) then
    double_click_drag s2 p
  else s2

/-- Translation of the r2 branch of single_click (editor.py lines
1405-1535).  The first selection is recorded; the second selection
immediately reads the local names can_reduce_over and can_reduce_under
(line 1410), which are never assigned in that scope (the branch sits in
an unresolved merge-conflict region), so the source raises NameError
before any mutation of the diagram. -/
def r2_click (s : DState) (p : Pt) : Except Err DState :=
  let s0 := { s with r2_crossings := s.r2_crossings ++ [p] }
  if s0.r2_crossings.length == 2 then .error .nameErrorR2
  else .ok s0

/-- The plain crossing click of single_click (editor.py lines
1536-1546): a virtual crossing only loses its virtual flag; a
non-virtual crossing is reversed. -/
def plain_cross_click (s : DState) (ci : Nat) : DState :=
  match s.Crossings.get? ci with
  | none => s
  | some c =>
    let c2 := if c.is_virtual then { c with is_virtual := false } else reverseCrx c
    { s with Crossings := s.Crossings.set ci c2 }

/-- The empty-space click of single_click (editor.py lines 1585-1596):
a generic fresh vertex is appended, colored from the palette, and the
editor enters drawing state. -/
def new_vertex_click (s : DState) (p : Pt) : DState :=
  let nv := newVertex s p s.nextColor
  { nv.1 with
    Vertices := nv.1.Vertices ++ [nv.2],
    nextColor := nv.1.nextColor + 1,
    ActiveVertex := some nv.2, mode := .drawing_state }

/-- The plain arrow click of single_click (editor.py lines 1578-1582):
the path through the end of the first arrow hit is reversed. -/
def arrow_reverse_click (s : DState) (p : Pt) : DState :=
  match s.Arrows.find? (fun a =>
      let A := getAD s.gview a
      tooCloseSeg p (vpos s A.astart) (vpos s A.aend) eps) with
  | none => s
  | some a =>
    match getArr s a with
    | none => s
    | some A => reverse_path s A.aend

/-- The vertex-mode arrow click of single_click (editor.py lines
1549-1576): the last arrow hit is split at the click point into two
fresh arrows through a fresh vertex, and the crossings of both fresh
arrows are recomputed. -/
def vertex_insert_click (s : DState) (p : Pt) : DState :=
  let hits := s.Arrows.filter (fun a =>
    let A := getAD s.gview a
    tooCloseSeg p (vpos s A.astart) (vpos s A.aend) eps)
  match hits.getLast? with
  | none => s
  | some a =>
    match getArr s a with
    | none => s
    | some A =>
      let s1 := destroy_arrow s a
      let nv := newVertex s1 p A.color
      let na1 := newArrow nv.1 A.astart nv.2 A.color
      let na2 := newArrow na1.1 nv.2 A.aend A.color
      let s3 := { na2.1 with
                  Vertices := na2.1.Vertices ++ [nv.2],
                  Arrows := na2.1.Arrows ++ [na1.2, na2.2] }
      let s4 := update_crossings s3 (some na1.2)
      update_crossings s4 (some na2.2)

/-- Translation of the start-state part of LinkEditor.single_click
(editor.py lines 1281-1596): dispatch on a vertex hit (r3 selection or
dragging entry), the lock guard, a crossing hit (r1, r2 or the plain
over-under toggle), an arrow hit (vertex insertion or path reversal) and
finally the creation of a new vertex on generic empty space. -/
def single_click_start (s : DState) (p : Pt) : Except Err DState :=
  match hitVertex s.gview p with
  | some vid =>
    if s.r3_mode then r3_vertex_click s p
    else .ok (drag_entry s p vid)
  | none =>
    if s.lock_var then .ok s
    else
      match crossIndex s.gview s.Crossings p with
      | some ci =>
        if s.r1_mode then r1_click s p ci
        else if s.r2_mode then r2_click s p
        else .ok (plain_cross_click s ci)
      | none =>
        if clicked_on_arrow s.gview p then
          if s.vertex_mode then .ok (vertex_insert_click s p)
          else .ok (arrow_reverse_click s p)
        else if !(generic_vertex s.gview none p) then .ok s
        else .ok (new_vertex_click s p)

/-- The shared tail of the drawing-state extension (editor.py lines
1684-1692): recompute the crossings of the committed arrow, append the
fresh vertex to self.Vertices and make it active. -/
def drawing_extend_tail (s : DState) (na fresh : Nat) : DState :=
  let s4 := update_crossings s (some na)
  { s4 with Vertices := s4.Vertices ++ [fresh], ActiveVertex := some fresh }

/-- The meld of the pending arrow onto a resolved target vertex
(editor.py lines 1632-1644 and 1661-1673): reverse the target path when
it has an incoming arrow, re-target the pending arrow, recolor a merged
component of a different color, recompute the crossings of the pending
arrow and return to start state.  The r3 variant clears the recorded r3
clicks; the plain variant clears the one-shot r3 helper flag. -/
def drawing_meld (s : DState) (av na w : Nat) : DState :=
  let s4 := if (getV s w).in_arrow != none then reverse_path s w else s
  let s5 := { s4 with astore := setA s4.astore na (fun A => { A with aend := w }) }
  let s6 := { s5 with vstore := setA s5.vstore w (fun d => { d with in_arrow := some na }) }
  let s7 :=
    if (getV s6 w).color != (getV s6 av).color
    then recolor_incoming s6 w (getV s6 w).color else s6
  let s8 := update_crossings s7 (some na)
  { s8 with mode := .start_state, ActiveVertex := none }

/-- The pending-arrow setup of a drawing-state click (editor.py lines
1599 and 1609-1624): a fresh hidden vertex is created at the click
point; the existing out arrow of the active vertex is re-targeted to it,
or a fresh arrow is created and appended; the fresh vertex takes the
color of the pending arrow.  Returns the state, the pending arrow handle
and the fresh vertex handle. -/
def drawing_setup (s : DState) (p : Pt) (av : Nat) : DState × Nat × Nat :=
  let fv := newVertex s p 0
  let s0 := fv.1
  let fresh := fv.2
  let setup : DState × Nat :=
    match (getV s0 av).out_arrow with
    | some na =>
      let s1 := { s0 with astore := setA s0.astore na (fun A => { A with aend := fresh }) }
      let s2 := { s1 with vstore := setA s1.vstore fresh (fun d => { d with in_arrow := some na }) }
      (s2, na)
    | none =>
      let col := (getV s0 av).color
      let na := newArrow s0 av fresh col
      ({ na.1 with Arrows := na.1.Arrows ++ [na.2] }, na.2)
  let s2 := setup.1
  let na := setup.2
  let col := match getAG s2.gview na with | some A => A.color | none => 0
  ({ s2 with vstore := setA s2.vstore fresh (fun d => { d with color := col }) }, na, fresh)

/-- Translation of the drawing-state part of LinkEditor.single_click
(editor.py lines 1597-1693): cancel on a second click of the active
vertex; otherwise set up the pending arrow to the fresh click vertex,
then in r3 mode meld onto the second r3 marker or extend, and outside r3
mode meld onto a hit endpoint vertex or extend.  A failed meld
genericity check alerts and returns with everything in place; a failed
extension check alerts and destroys the pending arrow. -/
def single_click_drawing (s : DState) (p : Pt) : Except Err DState :=
  match s.ActiveVertex with
  | none => .error .attrErrorNone
  | some av =>
    if vhit p (vpos s av) then
      let s1 :=
        match (getV s av).out_arrow with
        | some da => destroy_arrow s da
        | none => s
      .ok { s1 with mode := .start_state, ActiveVertex := none }
    else
      let s3 := (drawing_setup s p av).1
      let na := (drawing_setup s p av).2.1
      let fresh := (drawing_setup s p av).2.2
      if s3.r3_mode then
        match s3.r3_crossings.get? 1 with
        | none => .error .valueErrorIndex
        | some t2 =>
          if vhit p t2 then
            if !(generic_arrow s3.gview s3.Crossings (some na)) then .ok s3
            else
              match hitVertex s3.gview p with
              | none => .error .valueErrorIndex
              | some w =>
                let s9 := drawing_meld s3 av na w
                .ok { s9 with r3_crossings := [] }
          else
            if !(generic_vertex s3.gview (some fresh) p &&
                 generic_arrow s3.gview s3.Crossings (some na)) then
              .ok (destroy_arrow s3 na)
            else .ok (drawing_extend_tail s3 na fresh)
      else
        match s3.Vertices.find? (fun w => isEndpoint s3.gview w && vhit p (vpos s3 w)) with
        | some _ =>
          if !(generic_arrow s3.gview s3.Crossings (some na)) then .ok s3
          else
            match hitVertex s3.gview p with
            | none => .error .valueErrorIndex
            | some w =>
              let s9 := drawing_meld s3 av na w
              .ok { s9 with r3_helper_tuple := none }
        | none =>
          if !(generic_vertex s3.gview (some fresh) p &&
               generic_arrow s3.gview s3.Crossings (some na)) then
            .ok (destroy_arrow s3 na)
          else .ok (drawing_extend_tail s3 na fresh)

/-- Translation of LinkEditor.shift_click (editor.py lines 944-968): a
shift click outside lock mode toggles the virtual flag of the hit
crossing. -/
def shift_click (s : DState) (p : Pt) : DState :=
  if s.lock_var then s
  else
    match crossIndex s.gview s.Crossings p with
    | some ci =>
      match s.Crossings.get? ci with
      | none => s
      | some c =>
        { s with Crossings := s.Crossings.set ci { c with is_virtual := !c.is_virtual } }
    | none => s

/-- Translation of LinkEditor.single_click (editor.py lines 1266-1698):
dispatch on the editor state; a click while dragging finishes the drag,
alerting on the ValueError of end_dragging_state. -/
def single_click (s : DState) (p : Pt) : Except Err DState :=
  match s.mode with
  | .start_state => single_click_start s p
  | .drawing_state => single_click_drawing s p
  | .dragging_state => .ok (end_dragging_state s).1

/-- The proper-intersection pair property of two arrow handles, in
either parameter order (the geometric test of section 4.2 of the spec is
symmetric; both orders are kept so that symmetry is a theorem, not an
assumption). -/
def properPairB (g : GView) (i j : Nat) : Bool :=
  match getAG g i, getAG g j with
  | some A, some B => (interAG g A B).isSome || (interAG g B A).isSome
  | _, _ => false

/-- Membership of an unordered arrow pair in a stored crossing list. -/
def hasPairB (cs : List Crx) (i j : Nat) : Bool :=
  cs.any (fun c => cEq c ⟨i, j, false⟩)

/-- The crossing exactness invariant of the spec (sections 3 and 8): the
stored crossing list holds exactly the unordered pairs of distinct listed
arrows whose segments properly intersect, with the proper intersection of
the claim: both parameters strictly inside (0, 1) and a point farther
than the tolerance from every vertex.  Nothing stale, nothing missing. -/
def crossingsExactB (s : DState) : Bool :=
  (s.Crossings.all (fun c =>
    s.Arrows.contains c.over && s.Arrows.contains c.under &&
    (c.over != c.under) && properPairB s.gview c.over c.under)) &&
  (s.Arrows.all (fun i => s.Arrows.all (fun j =>
    if i == j then true
    else if properPairB s.gview i j then hasPairB s.Crossings i j else true)))

/-- The serialized geometry: vertex positions with colors, in the order
of self.Vertices, and arrows as endpoint-index pairs with colors, in the
order of self.Arrows.  Crossing data is never persisted (spec section
6). -/
structure Pickled where
  pverts : List (Pt × Nat)
  parrows : List (Nat × Nat × Nat)
deriving DecidableEq

/-- Index of a handle in a handle list (Python list.index; handles are
exact, so this is exact equality). -/
def idxOf (l : List Nat) (v : Nat) : Nat :=
  match l with
  | [] => 0
  | a :: rest => if a = v then 0 else idxOf rest v + 1

/-- Modelled from the spec (section 6, persistence layer; the
serializing code lives outside src): only the geometry is written out,
as the flat list of vertex positions and colors plus arrow
endpoint-index pairs. -/
def pickle (s : DState) : Pickled :=
  { pverts := s.Vertices.map (fun v => (vpos s v, (getV s v).color)),
    parrows := s.Arrows.map (fun a =>
      let A := getAD s.gview a
      (idxOf s.Vertices A.astart, idxOf s.Vertices A.aend, A.color)) }

/-- Modelled from the spec (section 6 and PLinkBase.unpickle at
editor.py lines 322-325; LinkManager.unpickle is not in src): reloading
rebuilds the vertices and arrows from the flat geometry, with handles
renumbered by position, links the endpoint references, and reconstructs
all crossings from geometry alone by running the crossing detector of
update_crossings once per arrow, in order. -/
def unpickle (pd : Pickled) : DState :=
  let vst := pd.pverts.enum.map (fun pr => (pr.1, Vtx.mk pr.2.1 pr.2.2 none none))
  let ast := pd.parrows.enum.map (fun pr => (pr.1, Arr.mk pr.2.1 pr.2.2.1 pr.2.2.2))
  let vst2 := pd.parrows.enum.foldl (fun st pr =>
    setA (setA st pr.2.1 (fun d => { d with out_arrow := some pr.1 }))
      pr.2.2.1 (fun d => { d with in_arrow := some pr.1 })) vst
  let base : DState :=
    { vstore := vst2, astore := ast,
      Vertices := List.range pd.pverts.length,
      Arrows := List.range pd.parrows.length,
      Crossings := [],
      mode := .start_state, ActiveVertex := none, saved_crossing_data := none,
      lock_var := false, under_mode := false, vertex_mode := false,
      r1_mode := false, r2_mode := false, r3_mode := false,
      r2_crossings := [], r3_crossings := [], r3_helper_tuple := none,
      cursor := ⟨0, 0⟩,
      nextId := pd.pverts.length + pd.parrows.length, nextColor := 0 }
  (List.range pd.parrows.length).foldl (fun st a => update_crossings st (some a)) base

/-- Two crossing lists agree as sets of unordered arrow pairs. -/
def samePairsB (cs ds : List Crx) : Bool :=
  cs.all (fun c => ds.any (cEq c)) && ds.all (fun d => cs.any (cEq d))

/-- The proper-intersection property of an ordered pair of arrow
handles, through the defaulting accessor (the handles of a complete
arena resolve; a dangling handle yields the degenerate arrow, which
never intersects properly). -/
def pairProper (g : GView) (i j : Nat) : Prop :=
  (interAG g (getAD g i) (getAD g j)).isSome = true

/-- Well-formedness of one stored crossing for the reconstruction
argument: both arrows are listed (below the arrow count), distinct, and
properly intersecting. -/
def goodCrx (g : GView) (n : Nat) (c : Crx) : Prop :=
  c.over < n ∧ c.under < n ∧ c.over ≠ c.under ∧ pairProper g c.over c.under

/-- The reloaded state of unpickle before the crossing reconstruction
loop (the let-bound base of unpickle, factored out for the analysis). -/
def unpickleBase (pd : Pickled) : DState :=
  { vstore := pd.parrows.enum.foldl (fun st pr =>
      setA (setA st pr.2.1 (fun d => { d with out_arrow := some pr.1 }))
        pr.2.2.1 (fun d => { d with in_arrow := some pr.1 }))
      (pd.pverts.enum.map (fun pr => (pr.1, Vtx.mk pr.2.1 pr.2.2 none none))),
    astore := pd.parrows.enum.map (fun pr => (pr.1, Arr.mk pr.2.1 pr.2.2.1 pr.2.2.2)),
    Vertices := List.range pd.pverts.length,
    Arrows := List.range pd.parrows.length,
    Crossings := [],
    mode := .start_state, ActiveVertex := none, saved_crossing_data := none,
    lock_var := false, under_mode := false, vertex_mode := false,
    r1_mode := false, r2_mode := false, r3_mode := false,
    r2_crossings := [], r3_crossings := [], r3_helper_tuple := none,
    cursor := ⟨0, 0⟩,
    nextId := pd.pverts.length + pd.parrows.length, nextColor := 0 }

/-- The oriented-path property in the words of the claim: every arrow of
the path occurs in the crossing set exclusively in the over role or
exclusively in the under role, with one single role shared by the whole
path; an arrow with no occurrences is compatible with either role. -/
def claimOrientedB (s : DState) (path : List Nat) : Bool :=
  (path.all (fun a => !(s.Crossings.any (fun c => c.under == a)))) ||
  (path.all (fun a => !(s.Crossings.any (fun c => c.over == a))))

/-- The successful result of a click handler, if any. -/
def resOf (r : Except Err DState) : Option DState :=
  match r with
  | .ok s => some s
  | .error _ => none

/-- The error of a click handler, if any. -/
def errOf (r : Except Err DState) : Option Err :=
  match r with
  | .ok _ => none
  | .error e => some e

/-- An empty start-state editor with every mode flag off. -/
def baseState : DState :=
  { vstore := [], astore := [], Vertices := [], Arrows := [], Crossings := [],
    mode := .start_state, ActiveVertex := none, saved_crossing_data := none,
    lock_var := false, under_mode := false, vertex_mode := false,
    r1_mode := false, r2_mode := false, r3_mode := false,
    r2_crossings := [], r3_crossings := [], r3_helper_tuple := none,
    cursor := ⟨0, 0⟩, nextId := 0, nextColor := 0 }

/-- The triangle scenario of the spec: three vertices A(0,0), B(10,0),
C(5,10) joined cyclically (arrows 3 : A to B, 4 : B to C, 5 : C to A)
with zero crossings. -/
def triState : DState :=
  { baseState with
    vstore := [(0, ⟨⟨0, 0⟩, 0, some 5, some 3⟩),
               (1, ⟨⟨10, 0⟩, 0, some 3, some 4⟩),
               (2, ⟨⟨5, 10⟩, 0, some 4, some 5⟩)],
    astore := [(3, ⟨0, 1, 0⟩), (4, ⟨1, 2, 0⟩), (5, ⟨2, 0, 0⟩)],
    Vertices := [0, 1, 2],
    Arrows := [3, 4, 5],
    nextId := 6 }

/-- A diagram of two open strands with one crossing: arrow 0 from (0,0)
to (100,0) and arrow 1 from (50,-50) to (50,50), crossing at (50,0); the
stored crossing has arrow 1 over and arrow 0 under.  Handles are
positional so that the reload renumbering is the identity. -/
def xState : DState :=
  { baseState with
    vstore := [(0, ⟨⟨0, 0⟩, 0, none, some 0⟩),
               (1, ⟨⟨100, 0⟩, 0, some 0, none⟩),
               (2, ⟨⟨50, -50⟩, 1, none, some 1⟩),
               (3, ⟨⟨50, 50⟩, 1, some 1, none⟩)],
    astore := [(0, ⟨0, 1, 0⟩), (1, ⟨2, 3, 1⟩)],
    Vertices := [0, 1, 2, 3],
    Arrows := [0, 1],
    Crossings := [⟨1, 0, false⟩],
    nextId := 6 }

/-- A closed hexagonal loop with two self-crossings.  Arrows 10 to 15
join vertices 0 to 5 cyclically; arrow 10 crosses arrow 13 at (40,0) and
arrow 12 at (155/3,0).  The stored crossing list is exact. -/
def hexState : DState :=
  { baseState with
    vstore := [(0, ⟨⟨0, 0⟩, 0, some 15, some 10⟩),
               (1, ⟨⟨100, 0⟩, 0, some 10, some 11⟩),
               (2, ⟨⟨60, -50⟩, 0, some 11, some 12⟩),
               (3, ⟨⟨40, 70⟩, 0, some 12, some 13⟩),
               (4, ⟨⟨40, -90⟩, 0, some 13, some 14⟩),
               (5, ⟨⟨-40, -90⟩, 0, some 14, some 15⟩)],
    astore := [(10, ⟨0, 1, 0⟩), (11, ⟨1, 2, 0⟩), (12, ⟨2, 3, 0⟩),
               (13, ⟨3, 4, 0⟩), (14, ⟨4, 5, 0⟩), (15, ⟨5, 0, 0⟩)],
    Vertices := [0, 1, 2, 3, 4, 5],
    Arrows := [10, 11, 12, 13, 14, 15],
    Crossings := [⟨10, 13, false⟩, ⟨10, 12, false⟩],
    r1_mode := true,
    nextId := 16 }

/-- A drawing-state diagram for the meld scenario: the active vertex 0
sits at (0,0), a separate open strand runs from vertex 1 at (100,50) to
the endpoint vertex 2 at (100,0) via arrow 10, and the isolated vertex 3
at (50,3) lies within the tolerance of the segment from (0,0) to
(100,0). -/
def meldState : DState :=
  { baseState with
    vstore := [(0, ⟨⟨0, 0⟩, 0, none, none⟩),
               (1, ⟨⟨100, 50⟩, 1, none, some 10⟩),
               (2, ⟨⟨100, 0⟩, 1, some 10, none⟩),
               (3, ⟨⟨50, 3⟩, 2, none, none⟩)],
    astore := [(10, ⟨1, 2, 1⟩)],
    Vertices := [0, 1, 2, 3],
    Arrows := [10],
    mode := .drawing_state,
    ActiveVertex := some 0,
    nextId := 11 }

/-- A state whose crossing list has arrow 1 under arrow 2, used for the
oriented-path role analysis. -/
def orientState : DState :=
  { baseState with
    astore := [(0, ⟨0, 0, 0⟩), (1, ⟨0, 0, 0⟩), (2, ⟨0, 0, 0⟩)],
    Arrows := [0, 1, 2],
    Crossings := [⟨2, 1, false⟩] }

/-- A minimal locked dragging state: one isolated vertex being dragged,
with the empty crossing signature snapshotted. -/
def dragState : DState :=
  { baseState with
    vstore := [(0, ⟨⟨0, 0⟩, 0, none, none⟩)],
    Vertices := [0],
    mode := .dragging_state,
    ActiveVertex := some 0,
    saved_crossing_data := some ([], []),
    lock_var := true,
    nextId := 1 }

/-- A diagram with one path arrow (2, from vertex 0 to vertex 1) that
appears in the crossing set both as over and as under, so the
oriented-path precondition fails on it. -/
def notOriState : DState :=
  { baseState with
    vstore := [(0, ⟨⟨0, 0⟩, 0, none, some 2⟩),
               (1, ⟨⟨100, 0⟩, 0, some 2, none⟩)],
    astore := [(2, ⟨0, 1, 0⟩)],
    Vertices := [0, 1],
    Arrows := [2],
    Crossings := [⟨2, 9, false⟩, ⟨9, 2, false⟩],
    r3_mode := true,
    r3_crossings := [⟨0, 0⟩],
    nextId := 3 }

/-- The triangle state with r3 mode on and the first marker click (on
vertex A) already recorded. -/
def triR3 : DState := { triState with r3_mode := true, r3_crossings := [⟨0, 0⟩] }

/-- The triangle state with r1 mode switched on. -/
def triR1 : DState := { triState with r1_mode := true }

/-- The recomputation scenario for the helper flag: the crossing list of
the X state emptied and the one-shot r3 helper flag set. -/
def ucState : DState :=
  { xState with Crossings := [], r3_helper_tuple := some true }

/-- The meld scenario without the blocking vertex: the pending arrow
from vertex 0 to the click point stays generic, so the meld onto the
open endpoint vertex 2 goes through. -/
def meldOk : DState :=
  { meldState with
    vstore := [(0, ⟨⟨0, 0⟩, 0, none, none⟩),
               (1, ⟨⟨100, 50⟩, 1, none, some 10⟩),
               (2, ⟨⟨100, 0⟩, 1, some 10, none⟩)],
    Vertices := [0, 1, 2] }

theorem setA_cons_ne {α : Type} (k : Nat) (a : α) (tl : List (Nat × α)) (i : Nat)
    (f : α → α) (h : k ≠ i) : setA ((k, a) :: tl) i f = (k, a) :: setA tl i f := by
  simp [setA, h]

theorem lookA_setA_self {α : Type} (l : List (Nat × α)) (i : Nat) (f : α → α) :
    lookA (setA l i f) i = (lookA l i).map f := by
  induction l with
  | nil => rfl
  | cons hd tl ih =>
    obtain ⟨k, a⟩ := hd
    by_cases h : k = i
    · subst h
      have hh : setA ((k, a) :: tl) k f = (k, f a) :: setA tl k f := by
        simp [setA]
      rw [hh]
      simp [lookA]
    · rw [setA_cons_ne k a tl i f h]
      simp only [lookA, if_neg h]
      exact ih

theorem lookA_setA_ne {α : Type} (l : List (Nat × α)) (i j : Nat) (f : α → α)
    (h : i ≠ j) : lookA (setA l i f) j = lookA l j := by
  induction l with
  | nil => rfl
  | cons hd tl ih =>
    obtain ⟨k, a⟩ := hd
    by_cases h1 : k = i
    · subst h1
      have hh : setA ((k, a) :: tl) k f = (k, f a) :: setA tl k f := by
        simp [setA]
      rw [hh]
      have h2 : ¬(k = j) := fun hq => h (hq ▸ rfl)
      simp only [lookA, if_neg h2]
      exact ih
    · rw [setA_cons_ne k a tl i f h1]
      simp only [lookA]
      by_cases h2 : k = j
      · simp [h2]
      · simp only [if_neg h2]
        exact ih

theorem uc_gview (s : DState) (t : Option Nat) :
    (update_crossings s t).gview = s.gview := by
  cases t <;> rfl

theorem uc_ActiveVertex (s : DState) (t : Option Nat) :
    (update_crossings s t).ActiveVertex = s.ActiveVertex := by
  cases t <;> rfl

theorem uc_saved (s : DState) (t : Option Nat) :
    (update_crossings s t).saved_crossing_data = s.saved_crossing_data := by
  cases t <;> rfl

theorem uc_helper (s : DState) (t : Option Nat) :
    (update_crossings s t).r3_helper_tuple = s.r3_helper_tuple := by
  cases t <;> rfl

theorem uc_mode (s : DState) (t : Option Nat) :
    (update_crossings s t).mode = s.mode := by
  cases t <;> rfl

theorem uc_under (s : DState) (t : Option Nat) :
    (update_crossings s t).under_mode = s.under_mode := by
  cases t <;> rfl

theorem uc_vstore (s : DState) (t : Option Nat) :
    (update_crossings s t).vstore = s.vstore := by
  cases t <;> rfl

theorem uc_Vertices (s : DState) (t : Option Nat) :
    (update_crossings s t).Vertices = s.Vertices := by
  cases t <;> rfl

theorem uc_Arrows (s : DState) (t : Option Nat) :
    (update_crossings s t).Arrows = s.Arrows := by
  cases t <;> rfl

theorem verify_drag_gview (s : DState) : (verify_drag s).1.gview = s.gview := by
  unfold verify_drag
  cases hA : s.ActiveVertex <;> simp [hA, uc_gview]

theorem verify_drag_ActiveVertex (s : DState) :
    (verify_drag s).1.ActiveVertex = s.ActiveVertex := by
  unfold verify_drag
  cases hA : s.ActiveVertex <;> simp [hA, uc_ActiveVertex]

theorem verify_drag_saved (s : DState) :
    (verify_drag s).1.saved_crossing_data = s.saved_crossing_data := by
  unfold verify_drag
  cases hA : s.ActiveVertex <;> simp [hA, uc_saved]

theorem acd_eq (s : DState) : active_crossing_data s = acdG s.gview s.ActiveVertex := rfl

theorem vpos_setVpos (s : DState) (v : Nat) (p : Pt) :
    vpos (setVpos s v p) v = match lookA s.vstore v with | none => vpos s v | some _ => p := by
  unfold vpos vposG getVG setVpos DState.gview
  simp only [lookA_setA_self]
  cases lookA s.vstore v <;> rfl

theorem generic_arrow_none (g : GView) (cs : List Crx) : generic_arrow g cs none = true := rfl

theorem verify_drag_vstore (s : DState) : (verify_drag s).1.vstore = s.vstore :=
  congrArg GView.vstore (verify_drag_gview s)

theorem vpos_revert (s : DState) (v : Nat) (q : Pt) (t : DState)
    (ht : t.vstore = setA s.vstore v (fun d => { d with pos := q })) :
    vpos (setVpos t v (vpos s v)) v = vpos s v := by
  unfold vpos vposG getVG setVpos DState.gview
  simp only [ht, lookA_setA_self, Option.map_map]
  cases h : lookA s.vstore v <;> simp [h]

/-- C3: during a drag in locked (Preserve diagram) mode, every pointer
move either keeps the crossing signature of the in and out arrows of the
active vertex equal to the saved snapshot, or leaves the position of the
active vertex exactly where it was before the step; and the dragging
entry of single_click snapshots exactly the crossing signature of the
clicked vertex at the moment the drag begins. -/
theorem C3_locked_drag_signature :
    (∀ (s : DState) (x y : ℚ) (v : Nat), s.lock_var = true → s.ActiveVertex = some v →
      some (active_crossing_data (move_active s x y)) = s.saved_crossing_data ∨
      vpos (move_active s x y) v = vpos s v) ∧
    (∀ (s : DState) (p : Pt) (vid : Nat),
      ((getV s vid).in_arrow ≠ none ∨ (getV s vid).out_arrow ≠ none) →
      (drag_entry s p vid).saved_crossing_data = some (acdG s.gview (some vid)) ∧
      (drag_entry s p vid).mode = EMode.dragging_state ∧
      (drag_entry s p vid).ActiveVertex = some vid) := by
  constructor
  · intro s x y v hl ha
    have hma : move_active s x y =
        (if move_is_ok (setVpos s v ⟨x, y⟩) then
          (if !(generic_vertex (setVpos s v ⟨x, y⟩).gview (some v)
                (vpos (setVpos s v ⟨x, y⟩) v))
           then setVpos (setVpos s v ⟨x, y⟩) v (vpos s v)
           else
             (if !(verify_drag (setVpos s v ⟨x, y⟩)).2
              then setVpos (verify_drag (setVpos s v ⟨x, y⟩)).1 v (vpos s v)
              else (verify_drag (setVpos s v ⟨x, y⟩)).1))
         else setVpos (setVpos s v ⟨x, y⟩) v (vpos s v)) := by
      unfold move_active
      rw [ha, hl]
      rfl
    rw [hma]
    split_ifs with hmo hgv hvd
    · right
      exact vpos_revert s v ⟨x, y⟩ _ rfl
    · right
      exact vpos_revert s v ⟨x, y⟩ _ ((verify_drag_vstore _).trans rfl)
    · left
      have h1 : active_crossing_data (verify_drag (setVpos s v ⟨x, y⟩)).1 =
          active_crossing_data (setVpos s v ⟨x, y⟩) := by
        rw [acd_eq, acd_eq, verify_drag_gview, verify_drag_ActiveVertex]
      have h2 : (setVpos s v ⟨x, y⟩).saved_crossing_data =
          some (active_crossing_data (setVpos s v ⟨x, y⟩)) := eq_of_beq hmo
      rw [h1]
      have h3 : s.saved_crossing_data = (setVpos s v ⟨x, y⟩).saved_crossing_data := rfl
      rw [h3, h2]
    · right
      exact vpos_revert s v ⟨x, y⟩ _ rfl
  · intro s p vid h
    have hde : drag_entry s p vid =
        (if ((getV s vid).in_arrow == none) && ((getV s vid).out_arrow == none)
         then double_click_drag
           { s with
             mode := EMode.dragging_state,
             ActiveVertex := some vid,
             saved_crossing_data := some (acdG s.gview (some vid)) } p
         else
           { s with
             mode := EMode.dragging_state,
             ActiveVertex := some vid,
             saved_crossing_data := some (acdG s.gview (some vid)) }) := rfl
    have hc : (((getV s vid).in_arrow == none) && ((getV s vid).out_arrow == none)) = false := by
      rcases h with h1 | h1
      · simp [h1]
      · simp [h1]
    rw [hde, hc]
    exact ⟨rfl, rfl, rfl⟩

/-- Witness for C3 at a concrete locked drag and a concrete drag entry. -/
theorem C3_locked_drag_signature_witness :
    (some (active_crossing_data (move_active dragState 5 5)) =
       dragState.saved_crossing_data ∨
     vpos (move_active dragState 5 5) 0 = vpos dragState 0) ∧
    (drag_entry triState ⟨0, 0⟩ 0).saved_crossing_data =
      some (acdG triState.gview (some 0)) :=
  ⟨C3_locked_drag_signature.1 dragState 5 5 0 (by decide) (by decide),
   (C3_locked_drag_signature.2 triState ⟨0, 0⟩ 0 (Or.inl (by decide))).1⟩

/-- C9: generic_arrow applied to None returns True, so the genericity
check of a drag commit vacuously passes for a vertex missing its in
arrow: verify_drag then reduces to the check of the out arrow alone. -/
theorem C9_generic_arrow_none :
    (∀ (g : GView) (cs : List Crx), generic_arrow g cs none = true) ∧
    (∀ (s : DState) (v : Nat), s.ActiveVertex = some v → (getV s v).in_arrow = none →
      (verify_drag s).2 = generic_arrow (verify_drag s).1.gview (verify_drag s).1.Crossings
        (getV (verify_drag s).1 v).out_arrow) := by
  constructor
  · intro g cs
    rfl
  · intro s v ha hin
    have h0 : verify_drag s =
        (update_crossings s ((getV s v).out_arrow),
         generic_arrow (update_crossings s ((getV s v).out_arrow)).gview
           (update_crossings s ((getV s v).out_arrow)).Crossings
           ((getV (update_crossings s ((getV s v).out_arrow)) v).in_arrow) &&
         generic_arrow (update_crossings s ((getV s v).out_arrow)).gview
           (update_crossings s ((getV s v).out_arrow)).Crossings
           ((getV (update_crossings s ((getV s v).out_arrow)) v).out_arrow)) := by
      unfold verify_drag
      rw [ha]
      simp only [hin]
      rfl
    have e2 : getV (update_crossings s ((getV s v).out_arrow)) v = getV s v := by
      unfold getV
      rw [uc_gview]
    rw [h0]
    dsimp only
    rw [e2, hin, generic_arrow_none, Bool.true_and]

/-- Witness for C9: the vacuous pass on a concrete state and the
verify_drag reduction on a concrete dragging state with no in arrow. -/
theorem C9_generic_arrow_none_witness :
    generic_arrow xState.gview xState.Crossings none = true ∧
    (verify_drag dragState).2 =
      generic_arrow (verify_drag dragState).1.gview (verify_drag dragState).1.Crossings
        (getV (verify_drag dragState).1 0).out_arrow :=
  ⟨C9_generic_arrow_none.1 xState.gview xState.Crossings,
   C9_generic_arrow_none.2 dragState 0 (by decide) (by decide)⟩

theorem gview_set_r3 (s : DState) (x : List Pt) :
    ({ s with r3_crossings := x } : DState).gview = s.gview := rfl

theorem Crossings_set_r3 (s : DState) (x : List Pt) :
    ({ s with r3_crossings := x } : DState).Crossings = s.Crossings := rfl

theorem under_set_r3 (s : DState) (x : List Pt) :
    ({ s with r3_crossings := x } : DState).under_mode = s.under_mode := rfl

theorem destroy_arrow_Crossings (s : DState) (ai : Nat) :
    (destroy_arrow s ai).Crossings = s.Crossings.filter (fun c => !(cmem ai c)) := by
  unfold destroy_arrow
  cases h : getArr s ai <;> simp [h]

theorem destroy_arrow_mode (s : DState) (ai : Nat) :
    (destroy_arrow s ai).mode = s.mode := by
  unfold destroy_arrow
  cases h : getArr s ai <;> simp [h]

theorem destroy_arrow_Arrows (s : DState) (ai : Nat) :
    (destroy_arrow s ai).Arrows = removeFirstP (fun j => j == ai) s.Arrows := by
  unfold destroy_arrow
  cases h : getArr s ai <;> simp [h]

theorem foldl_destroy_Crossings (L : List Nat) (s : DState) :
    (L.foldl destroy_arrow s).Crossings
      = s.Crossings.filter (fun c => L.all (fun a => !(cmem a c))) := by
  induction L generalizing s with
  | nil => simp
  | cons a L ih =>
    rw [List.foldl_cons, ih, destroy_arrow_Crossings, List.filter_filter]
    apply List.filter_congr
    intro c _
    simp [Bool.and_comm]

theorem foldl_destroy_Arrows (L : List Nat) (s : DState) :
    (L.foldl destroy_arrow s).Arrows
      = L.foldl (fun al a => removeFirstP (fun j => j == a) al) s.Arrows := by
  induction L generalizing s with
  | nil => rfl
  | cons a L ih =>
    rw [List.foldl_cons, ih, destroy_arrow_Arrows, List.foldl_cons]

theorem foldl_removeVertexNear_Crossings (L : List Nat) (s : DState) :
    ((L.foldl (fun st w => removeVertexNear st (vpos st w)) s)).Crossings = s.Crossings := by
  induction L generalizing s with
  | nil => rfl
  | cons a L ih => rw [List.foldl_cons, ih]; rfl

theorem foldl_removeVertexNear_Arrows (L : List Nat) (s : DState) :
    ((L.foldl (fun st w => removeVertexNear st (vpos st w)) s)).Arrows = s.Arrows := by
  induction L generalizing s with
  | nil => rfl
  | cons a L ih => rw [List.foldl_cons, ih]; rfl

theorem length_filter_split (l : List Crx) (p : Crx → Bool) :
    (l.filter p).length + (l.filter (fun c => !(p c))).length = l.length := by
  induction l with
  | nil => rfl
  | cons c l ih =>
    by_cases h : p c = true <;> simp [List.filter_cons, h] <;> omega

theorem any_eq_not_all_notP {α : Type} (l : List α) (p : α → Bool) :
    l.any p = !(l.all fun a => !(p a)) := by
  induction l with
  | nil => rfl
  | cons a l ih =>
    by_cases h : p a = true <;> simp [h, ih]

/-- Case analysis of the second r3 marker click, once both markers
resolve and the path between them is computed: a non-oriented path
leaves everything but the recorded clicks alone, and an oriented path
destroys the path and re-enters drawing state. -/
theorem r3_click_cases (s : DState) (p p1 : Pt) (v1 v2 : Nat) (path : List Nat)
    (hclicks : s.r3_crossings = [p1])
    (h1 : hitVertex s.gview p1 = some v1)
    (h2 : hitVertex s.gview p = some v2)
    (hp : get_path_btwn s.gview v1 v2 = Except.ok path) :
    r3_vertex_click s p =
      (if oriented_path s.Crossings s.under_mode path then
        Except.ok { (vertex_set s.gview path).foldl
            (fun st w => removeVertexNear st (vpos st w))
            (path.foldl destroy_arrow { s with r3_crossings := [p1, p] }) with
          ActiveVertex := some v1, mode := EMode.drawing_state }
      else Except.ok { s with r3_crossings := [p1, p] }) := by
  unfold r3_vertex_click
  simp only [hclicks, gview_set_r3, Crossings_set_r3, under_set_r3]
  simp only [List.cons_append, List.nil_append, List.length_cons, List.length_nil,
    List.get?_cons_zero, List.get?_cons_succ]
  rw [h1, h2]
  simp only [show (0 + 1 + 1 == 2) = true from rfl, if_true]
  rw [hp]

theorem oriented_go_some (cs : List Crx) (um : Bool) (d : Bool) (path : List Nat) :
    oriented_go cs um (some d) path = true ↔
      ∀ a ∈ path, all_oriented cs um a = some d := by
  induction path with
  | nil => simp [oriented_go]
  | cons a rest ih =>
    unfold oriented_go
    cases h : all_oriented cs um a with
    | none =>
      simp only [List.mem_cons]
      constructor
      · intro hl
        cases hl
      · intro hr
        have := hr a (Or.inl rfl)
        rw [h] at this
        cases this
    | some b =>
      by_cases hb : b = d
      · subst hb
        simp only [beq_self_eq_true, if_true, ih, List.mem_cons]
        constructor
        · intro hall x hx
          rcases hx with h0 | h0
          · subst h0; exact h
          · exact hall x h0
        · intro hall x hx
          exact hall x (Or.inr hx)
      · have hbb : (b == d) = false := by simp [hb]
        simp only [hbb, if_false, List.mem_cons]
        constructor
        · intro hl
          cases hl
        · intro hr
          have := hr a (Or.inl rfl)
          rw [h] at this
          injection this with hbd
          exact absurd hbd hb

theorem oriented_path_iff (cs : List Crx) (um : Bool) (path : List Nat) :
    oriented_path cs um path = true ↔
      ∃ r : Bool, ∀ a ∈ path, all_oriented cs um a = some r := by
  cases path with
  | nil =>
    constructor
    · intro _
      exact ⟨true, fun a ha => absurd ha (List.not_mem_nil a)⟩
    · intro _
      rfl
  | cons a rest =>
    unfold oriented_path oriented_go
    cases h : all_oriented cs um a with
    | none =>
      constructor
      · intro hl
        cases hl
      · rintro ⟨r, hr⟩
        have := hr a (List.mem_cons_self a rest)
        rw [h] at this
        cases this
    | some b =>
      rw [oriented_go_some]
      constructor
      · intro hall
        refine ⟨b, fun x hx => ?_⟩
        rcases List.mem_cons.mp hx with h0 | h0
        · subst h0; exact h
        · exact hall x h0
      · rintro ⟨r, hr⟩
        have hb := hr a (List.mem_cons_self a rest)
        rw [h] at hb
        injection hb with hb
        subst hb
        intro x hx
        exact hr x (List.mem_cons_of_mem _ hx)

/-- C4 counterexample: the path [0, 1] where arrow 0 has no crossing
occurrences and arrow 1 occurs only as under satisfies the property of
the claim (a single consistent role, under, is available for the whole
path), yet oriented_path rejects it, because the roleless arrow 0 is
assigned the value of the global under-mode flag (over, as under mode is
off) and the roles then disagree. -/
theorem C4_counterexample :
    claimOrientedB orientState [0, 1] = true ∧
    oriented_path orientState.Crossings orientState.under_mode [0, 1] = false := by
  decide

/-- C4 as amended: a path is accepted by oriented_path precisely when
the per-arrow roles computed by all_oriented (under when the arrow only
occurs as under, over when it only occurs as over, the global under-mode
flag when it occurs in no crossing, and undefined when it occurs in both
roles) are all defined and all equal; and when the precondition fails on
the second r3 marker click the vertices, arrows and crossings are left
unchanged (the source shows no warning there). -/
theorem C4_oriented_path_characterization :
    (∀ (cs : List Crx) (um : Bool) (path : List Nat),
      oriented_path cs um path = true ↔
        ∃ r : Bool, ∀ a ∈ path, all_oriented cs um a = some r) ∧
    (∀ (s : DState) (p p1 : Pt) (v1 v2 : Nat) (path : List Nat),
      s.r3_crossings = [p1] → hitVertex s.gview p1 = some v1 →
      hitVertex s.gview p = some v2 → get_path_btwn s.gview v1 v2 = Except.ok path →
      oriented_path s.Crossings s.under_mode path = false →
      resOf (r3_vertex_click s p) = some { s with r3_crossings := [p1, p] }) := by
  constructor
  · exact oriented_path_iff
  · intro s p p1 v1 v2 path hclicks h1 h2 hp hor
    rw [r3_click_cases s p p1 v1 v2 path hclicks h1 h2 hp, hor]
    rfl

/-- Witness for C4: the characterization evaluated on the concrete
two-crossing state, and a concrete rejected r3 click on a path whose
single arrow occurs in both roles. -/
theorem C4_oriented_path_characterization_witness :
    (oriented_path orientState.Crossings orientState.under_mode [1] = true ↔
      ∃ r : Bool, ∀ a ∈ [1], all_oriented orientState.Crossings orientState.under_mode a
        = some r) ∧
    resOf (r3_vertex_click notOriState ⟨100, 0⟩) =
      some { notOriState with r3_crossings := [⟨0, 0⟩, ⟨100, 0⟩] } :=
  ⟨C4_oriented_path_characterization.1 orientState.Crossings orientState.under_mode [1],
   C4_oriented_path_characterization.2 notOriState ⟨100, 0⟩ ⟨0, 0⟩ 0 1 [2]
     (by decide) (by decide) (by decide) rfl (by decide)⟩

/-- C2 counterexample: on the triangle diagram with zero crossings, the
second r3 marker click succeeds (the diagram is mutated, arrow 3 is
deleted together with vertex 1, and the editor enters drawing state),
yet the stored crossing count does not decrease by 2: it stays 0.  So
neither disjunct of the claim holds: the move neither decreases the
count by exactly 2 nor leaves every field unchanged. -/
theorem C2_counterexample :
    (resOf (single_click_start triR3 ⟨10, 0⟩)).map
      (fun s => (s.mode, s.Crossings.length, s.Arrows, s.Vertices)) =
      some (EMode.drawing_state, 0, [4, 5], [0, 2]) ∧
    triR3.Crossings.length = 0 ∧ triR3.Arrows = [3, 4, 5] ∧
    triR3.Vertices = [0, 1, 2] := by decide

/-- C2 as amended, for the reachable moves: a rejected r3 move (the
oriented-path precondition fails) leaves vertices, arrows and crossings
unchanged; a successful r3 move deletes exactly the path arrows and
every stored crossing referencing one of them, so the crossing count
drops by exactly the number of such crossings, which need not be 2, and
the editor enters drawing state; and the second r2 selection always
raises NameError (its branch reads the undefined locals can_reduce_over
and can_reduce_under), so r2 never completes at all. -/
theorem C2_reidemeister_effect :
    (∀ (s : DState) (p p1 : Pt) (v1 v2 : Nat) (path : List Nat),
      s.r3_crossings = [p1] → hitVertex s.gview p1 = some v1 →
      hitVertex s.gview p = some v2 → get_path_btwn s.gview v1 v2 = Except.ok path →
      oriented_path s.Crossings s.under_mode path = false →
      ∃ t, resOf (r3_vertex_click s p) = some t ∧ t.Vertices = s.Vertices ∧
        t.Arrows = s.Arrows ∧ t.Crossings = s.Crossings) ∧
    (∀ (s : DState) (p p1 : Pt) (v1 v2 : Nat) (path : List Nat),
      s.r3_crossings = [p1] → hitVertex s.gview p1 = some v1 →
      hitVertex s.gview p = some v2 → get_path_btwn s.gview v1 v2 = Except.ok path →
      oriented_path s.Crossings s.under_mode path = true →
      ∃ t, resOf (r3_vertex_click s p) = some t ∧
        t.mode = EMode.drawing_state ∧
        t.Crossings = s.Crossings.filter (fun c => path.all (fun a => !(cmem a c))) ∧
        t.Arrows = path.foldl (fun al a => removeFirstP (fun j => j == a) al) s.Arrows ∧
        t.Crossings.length +
          (s.Crossings.filter (fun c => path.any (fun a => cmem a c))).length
          = s.Crossings.length) ∧
    (∀ (s : DState) (p : Pt), s.r2_crossings.length = 1 →
      r2_click s p = Except.error Err.nameErrorR2) := by
  refine ⟨?_, ?_, ?_⟩
  · intro s p p1 v1 v2 path hclicks h1 h2 hp hor
    rw [r3_click_cases s p p1 v1 v2 path hclicks h1 h2 hp, hor]
    exact ⟨{ s with r3_crossings := [p1, p] }, rfl, rfl, rfl, rfl⟩
  · intro s p p1 v1 v2 path hclicks h1 h2 hp hor
    rw [r3_click_cases s p p1 v1 v2 path hclicks h1 h2 hp, hor]
    refine ⟨_, rfl, rfl, ?_, ?_, ?_⟩
    · rw [foldl_removeVertexNear_Crossings, foldl_destroy_Crossings, Crossings_set_r3]
    · rw [foldl_removeVertexNear_Arrows, foldl_destroy_Arrows]
    · rw [foldl_removeVertexNear_Crossings, foldl_destroy_Crossings, Crossings_set_r3]
      have he : s.Crossings.filter (fun c => path.any (fun a => cmem a c))
          = s.Crossings.filter (fun c => !(path.all (fun a => !(cmem a c)))) := by
        apply List.filter_congr
        intro c _
        rw [any_eq_not_all_notP]
      rw [he]
      exact length_filter_split s.Crossings (fun c => path.all (fun a => !(cmem a c)))
  · intro s p hlen
    unfold r2_click
    simp [hlen]

/-- Witness for C2: the rejected move on the both-roles state, the
successful move on the triangle, and the r2 NameError on a concrete
second selection. -/
theorem C2_reidemeister_effect_witness :
    (∃ t, resOf (r3_vertex_click notOriState ⟨100, 0⟩) = some t ∧
      t.Vertices = notOriState.Vertices ∧ t.Arrows = notOriState.Arrows ∧
      t.Crossings = notOriState.Crossings) ∧
    (∃ t, resOf (r3_vertex_click triR3 ⟨10, 0⟩) = some t ∧
      t.mode = EMode.drawing_state ∧
      t.Crossings = triR3.Crossings.filter (fun c => [3].all (fun a => !(cmem a c))) ∧
      t.Arrows = [3].foldl (fun al a => removeFirstP (fun j => j == a) al) triR3.Arrows ∧
      t.Crossings.length +
        (triR3.Crossings.filter (fun c => [3].any (fun a => cmem a c))).length
        = triR3.Crossings.length) ∧
    r2_click { xState with r2_mode := true, r2_crossings := [⟨50, 0⟩] } ⟨50, 0⟩ =
      Except.error Err.nameErrorR2 :=
  ⟨C2_reidemeister_effect.1 notOriState ⟨100, 0⟩ ⟨0, 0⟩ 0 1 [2]
     (by decide) (by decide) (by decide) rfl (by decide),
   C2_reidemeister_effect.2.1 triR3
     ⟨10, 0⟩ ⟨0, 0⟩ 0 1 [3] (by decide) (by decide) (by decide) rfl (by decide),
   C2_reidemeister_effect.2.2 { xState with r2_mode := true, r2_crossings := [⟨50, 0⟩] }
     ⟨50, 0⟩ (by decide)⟩

/-- C1 (code bug): the hexagonal loop is exact before the click; the r1
reduction at the crossing (40, 0) completes (the editor stays in start
state with an empty crossing list), yet the replacement arrow 18 from
the new vertex to vertex 1 properly intersects the surviving arrow 12,
and no crossing records it: the exactness invariant fails right after a
successfully completed Reidemeister move, because the r1 branch never
runs update_crossings on its two replacement arrows. -/
theorem C1_r1_breaks_exactness :
    crossingsExactB hexState = true ∧
    (resOf (single_click_start hexState ⟨40, 0⟩)).map
      (fun s => (s.Crossings, s.mode, properPairB s.gview 12 18,
                 hasPairB s.Crossings 12 18, crossingsExactB s)) =
      some ([], EMode.start_state, true, false, false) := by decide

/-- C7 counterexample: in r1 mode, the click at (200, 200) of the
triangle scenario, where no crossing exists, does not fail and does not
leave the diagram unchanged: the vertex list changes (a new vertex is
created). -/
theorem C7_counterexample :
    (resOf (single_click_start triR1 ⟨200, 200⟩)).map
      (fun s => decide (s.Vertices = triR1.Vertices)) = some false := by decide

/-- C7 as amended: an r1-mode click at a point with no crossing falls
through to the ordinary start-state handling; on generic empty space it
creates a new vertex, makes it active and enters drawing state, with
the arrows and (empty) crossing list untouched.  No
UnsupportedConfiguration-style rejection exists in the code. -/
theorem C7_r1_click_empty_space :
    (resOf (single_click_start triR1 ⟨200, 200⟩)).map
      (fun s => (s.Vertices, s.Arrows, s.Crossings, s.mode, s.ActiveVertex)) =
      some ([0, 1, 2, 6], [3, 4, 5], [], EMode.drawing_state, some 6) := by decide

theorem mem_removeFirstP {α : Type} (p : α → Bool) (l : List α) (a : α)
    (h : a ∈ removeFirstP p l) : a ∈ l := by
  induction l with
  | nil => cases h
  | cons b l ih =>
    unfold removeFirstP at h
    by_cases hb : p b = true
    · rw [if_pos hb] at h
      exact List.mem_cons_of_mem b h
    · rw [if_neg hb] at h
      rcases List.mem_cons.mp h with h0 | h0
      · exact h0 ▸ List.mem_cons_self b l
      · exact List.mem_cons_of_mem b (ih h0)

theorem uc_step_mem (g : GView) (um : Bool) (r3h : Option Bool) (ta : Nat) (A : Arr)
    (cl : List Crx) (cs : List Crx) (aid : Nat) (c : Crx)
    (hr : r3h = some true)
    (hmem : c ∈ uc_step g um r3h ta A cl cs aid) : c ∈ cs ∨ c.under = ta := by
  by_cases h : aid = ta
  · unfold uc_step at hmem
    rw [if_pos h] at hmem
    exact Or.inl hmem
  · have hred : uc_step g um r3h ta A cl cs aid =
        (match interAG g A (getAD g aid) with
         | some _ =>
           if cl.any (cEq ⟨aid, ta, false⟩) then cs else cs ++ [⟨aid, ta, false⟩]
         | none =>
           if cs.any (cEq ⟨aid, ta, false⟩) then removeFirstP (cEq ⟨aid, ta, false⟩) cs
           else cs) := by
      unfold uc_step
      rw [if_neg h, hr]
      rfl
    rw [hred] at hmem
    cases hint : interAG g A (getAD g aid) with
    | some tp =>
      rw [hint] at hmem
      by_cases hany : cl.any (cEq ⟨aid, ta, false⟩) = true
      · rw [if_pos hany] at hmem
        exact Or.inl hmem
      · rw [if_neg hany] at hmem
        rcases List.mem_append.mp hmem with h0 | h0
        · exact Or.inl h0
        · right
          rcases List.mem_singleton.mp h0 with rfl
          rfl
    | none =>
      rw [hint] at hmem
      by_cases hany : cs.any (cEq ⟨aid, ta, false⟩) = true
      · rw [if_pos hany] at hmem
        exact Or.inl (mem_removeFirstP _ _ _ hmem)
      · rw [if_neg hany] at hmem
        exact Or.inl hmem

theorem uc_fold_mem (g : GView) (um : Bool) (r3h : Option Bool) (ta : Nat) (A : Arr)
    (cl : List Crx) (hr : r3h = some true) :
    ∀ (L : List Nat) (acc : List Crx) (c : Crx),
      c ∈ L.foldl (uc_step g um r3h ta A cl) acc → c ∈ acc ∨ c.under = ta := by
  intro L
  induction L with
  | nil =>
    intro acc c hc
    exact Or.inl hc
  | cons aid L ih =>
    intro acc c hc
    rcases ih (uc_step g um r3h ta A cl acc aid) c hc with h0 | h0
    · exact uc_step_mem g um r3h ta A cl acc aid c hr h0
    · exact Or.inr h0

theorem uc_run_mem_of_helper (g : GView) (um : Bool) (r3h : Option Bool) (ta : Nat)
    (cs : List Crx) (c : Crx) (hr : r3h = some true)
    (hc : c ∈ uc_run g um r3h ta cs) : c ∈ cs ∨ c.under = ta := by
  unfold uc_run at hc
  cases hA : lookA g.astore ta with
  | none =>
    rw [hA] at hc
    exact Or.inl hc
  | some A =>
    rw [hA] at hc
    exact uc_fold_mem g um r3h ta A (cs.filter (cmem ta)) hr g.alist cs c hc

theorem lookA_append_left {α : Type} (l l2 : List (Nat × α)) (i : Nat) (a : α)
    (h : lookA l i = some a) : lookA (l ++ l2) i = some a := by
  induction l with
  | nil => cases h
  | cons hd tl ih =>
    obtain ⟨k, b⟩ := hd
    rw [List.cons_append]
    unfold lookA at h ⊢
    by_cases hk : k = i
    · rw [if_pos hk] at h ⊢
      exact h
    · rw [if_neg hk] at h ⊢
      exact ih h

theorem lookA_append_right {α : Type} (l l2 : List (Nat × α)) (i : Nat)
    (h : lookA l i = none) : lookA (l ++ l2) i = lookA l2 i := by
  induction l with
  | nil => rfl
  | cons hd tl ih =>
    obtain ⟨k, b⟩ := hd
    rw [List.cons_append]
    show (if k = i then some b else lookA (tl ++ l2) i) = lookA l2 i
    unfold lookA at h
    by_cases hk : k = i
    · rw [if_pos hk] at h
      cases h
    · rw [if_neg hk] at h ⊢
      exact ih h

theorem getV_newVertex_out (s : DState) (p : Pt) (av : Nat) :
    (getV (newVertex s p 0).1 av).out_arrow = (getV s av).out_arrow := by
  have e : getV (newVertex s p 0).1 av =
      (lookA (s.vstore ++ [(s.nextId, ⟨p, 0, none, none⟩)]) av).getD
        ⟨⟨0, 0⟩, 0, none, none⟩ := rfl
  rw [e]
  cases h : lookA s.vstore av with
  | some d =>
    rw [lookA_append_left _ _ _ _ h]
    have e2 : getV s av = d := by
      show (lookA s.vstore av).getD _ = d
      rw [h]
      rfl
    rw [e2]
    rfl
  | none =>
    rw [lookA_append_right _ _ _ h]
    have e2 : getV s av = (⟨⟨0, 0⟩, 0, none, none⟩ : Vtx) := by
      show (lookA s.vstore av).getD _ = _
      rw [h]
      rfl
    rw [e2]
    by_cases hn : s.nextId = av
    · simp [lookA, hn, Option.getD]
    · simp [lookA, hn, Option.getD]

theorem drawing_setup_fields (s : DState) (p : Pt) (av : Nat) :
    (drawing_setup s p av).1.mode = s.mode ∧
    (drawing_setup s p av).1.r3_mode = s.r3_mode ∧
    (drawing_setup s p av).1.Crossings = s.Crossings ∧
    (drawing_setup s p av).1.Vertices = s.Vertices ∧
    (drawing_setup s p av).1.r3_helper_tuple = s.r3_helper_tuple ∧
    (drawing_setup s p av).1.ActiveVertex = s.ActiveVertex := by
  unfold drawing_setup
  cases h : (getV (newVertex s p 0).1 av).out_arrow <;>
    (simp only [h]; simp [newVertex, newArrow])

theorem drawing_setup_pending_mem (s : DState) (p : Pt) (av : Nat)
    (hout : ∀ a, (getV s av).out_arrow = some a → a ∈ s.Arrows) :
    (drawing_setup s p av).2.1 ∈ (drawing_setup s p av).1.Arrows := by
  unfold drawing_setup
  cases h : (getV (newVertex s p 0).1 av).out_arrow with
  | some na =>
    simp only [h]
    simp [newVertex]
    exact hout na (getV_newVertex_out s p av ▸ h)
  | none =>
    simp only [h]
    simp [newVertex, newArrow]

/-- The non-r3 meld branch of a drawing-state click: when the click is
not a cancel, r3 mode is off and some listed endpoint vertex is hit, the
click reduces to the genericity check followed by the meld. -/
theorem drawing_click_nonr3 (s : DState) (p : Pt) (av : Nat)
    (ha : s.ActiveVertex = some av)
    (hnc : vhit p (vpos s av) = false)
    (hr3 : s.r3_mode = false)
    (hfind : ((drawing_setup s p av).1.Vertices.find? (fun w =>
        isEndpoint (drawing_setup s p av).1.gview w &&
        vhit p (vpos (drawing_setup s p av).1 w))).isSome = true) :
    single_click_drawing s p =
      (if !(generic_arrow (drawing_setup s p av).1.gview (drawing_setup s p av).1.Crossings
            (some (drawing_setup s p av).2.1)) then
        Except.ok (drawing_setup s p av).1
      else
        match hitVertex (drawing_setup s p av).1.gview p with
        | none => Except.error Err.valueErrorIndex
        | some w => Except.ok { drawing_meld (drawing_setup s p av).1 av
            (drawing_setup s p av).2.1 w with r3_helper_tuple := none }) := by
  obtain ⟨w0, hw0⟩ := Option.isSome_iff_exists.mp hfind
  have hc1 : ¬(vhit p (vpos s av) = true) := by
    rw [hnc]
    exact Bool.false_ne_true
  have hc3 : ¬((drawing_setup s p av).1.r3_mode = true) := by
    rw [(drawing_setup_fields s p av).2.1, hr3]
    exact Bool.false_ne_true
  unfold single_click_drawing
  simp only [ha]
  rw [if_neg hc1, if_neg hc3]
  simp only [hw0]

/-- C5 counterexample: in the meld scenario, the drawing-state click at
(100, 0) hits the open endpoint vertex 2, the genericity check of the
pending arrow fails (vertex 3 at (50, 3) lies within the tolerance of
the pending segment), and yet the pending arrow 12 stays on self.Arrows,
the editor stays in drawing state and the active vertex is kept: the
pending arrow is not destroyed and the editor does not return to the
start state. -/
theorem C5_counterexample :
    (resOf (single_click_drawing meldState ⟨100, 0⟩)).map
      (fun s => (s.mode, s.Arrows, s.ActiveVertex)) =
      some (EMode.drawing_state, [10, 12], some 0) := by decide

/-- C5 as amended: on a drawing-state click that hits a listed open
endpoint vertex (and is not a cancel click on the active vertex, outside
r3 mode), a failed generic_arrow check merely alerts and returns: the
post-click state is exactly the pending-arrow setup state, which keeps
the pending arrow on self.Arrows, keeps the mode (drawing), the active
vertex and the crossing list.  The pending arrow is not destroyed and
the editor does not return to the start state, contrary to the claim. -/
theorem C5_meld_failure (s : DState) (p : Pt) (av : Nat)
    (ha : s.ActiveVertex = some av)
    (hnc : vhit p (vpos s av) = false)
    (hr3 : s.r3_mode = false)
    (hfind : ((drawing_setup s p av).1.Vertices.find? (fun w =>
        isEndpoint (drawing_setup s p av).1.gview w &&
        vhit p (vpos (drawing_setup s p av).1 w))).isSome = true)
    (hga : generic_arrow (drawing_setup s p av).1.gview (drawing_setup s p av).1.Crossings
        (some (drawing_setup s p av).2.1) = false)
    (hout : ∀ a, (getV s av).out_arrow = some a → a ∈ s.Arrows) :
    single_click_drawing s p = Except.ok (drawing_setup s p av).1 ∧
    (drawing_setup s p av).2.1 ∈ (drawing_setup s p av).1.Arrows ∧
    (drawing_setup s p av).1.mode = s.mode ∧
    (drawing_setup s p av).1.ActiveVertex = s.ActiveVertex ∧
    (drawing_setup s p av).1.Crossings = s.Crossings := by
  refine ⟨?_, drawing_setup_pending_mem s p av hout, (drawing_setup_fields s p av).1,
    (drawing_setup_fields s p av).2.2.2.2.2, (drawing_setup_fields s p av).2.2.1⟩
  rw [drawing_click_nonr3 s p av ha hnc hr3 hfind, hga]
  rfl

theorem C5_meld_failure_witness :
    single_click_drawing meldState ⟨100, 0⟩ =
      Except.ok (drawing_setup meldState ⟨100, 0⟩ 0).1 ∧
    (drawing_setup meldState ⟨100, 0⟩ 0).2.1 ∈ (drawing_setup meldState ⟨100, 0⟩ 0).1.Arrows ∧
    (drawing_setup meldState ⟨100, 0⟩ 0).1.mode = meldState.mode ∧
    (drawing_setup meldState ⟨100, 0⟩ 0).1.ActiveVertex = meldState.ActiveVertex ∧
    (drawing_setup meldState ⟨100, 0⟩ 0).1.Crossings = meldState.Crossings :=
  C5_meld_failure meldState ⟨100, 0⟩ 0 rfl (by decide) rfl (by decide) (by decide)
    (fun _ h => Option.noConfusion h)

/-- C6 counterexample: with the helper flag set, a crossing
recomputation leaves the flag set (it is not cleared), it inverts the
tie-break (the new crossing is stored with the recomputed arrow 0 as the
under arrow, where the default tie-break would store it as the over
arrow), and a second recomputation still sees the flag: the flag is not
one-shot. -/
theorem C6_counterexample :
    (update_crossings ucState (some 0)).r3_helper_tuple = some true ∧
    (update_crossings ucState (some 0)).Crossings = [⟨1, 0, false⟩] ∧
    (update_crossings { ucState with r3_helper_tuple := none } (some 0)).Crossings =
      [⟨0, 1, false⟩] ∧
    (update_crossings (update_crossings ucState (some 0)) (some 1)).r3_helper_tuple =
      some true := by decide

/-- C6 as amended: update_crossings consults the r3 helper flag but
never clears it — the flag survives every recomputation unchanged, so it
is not one-shot; while it holds some true, a recomputation of an arrow
only adds crossings whose under arrow is that arrow (the inverted
tie-break).  The flag is cleared not by the recomputation but by the
non-r3 meld branch of a drawing-state click, which stores none into it
on the way out. -/
theorem C6_helper_flag :
    (∀ (s : DState) (t : Option Nat),
      (update_crossings s t).r3_helper_tuple = s.r3_helper_tuple) ∧
    (∀ (s : DState) (ta : Nat) (c : Crx), s.r3_helper_tuple = some true →
      c ∈ (update_crossings s (some ta)).Crossings → c ∈ s.Crossings ∨ c.under = ta) ∧
    (∀ (s : DState) (p : Pt) (av w : Nat),
      s.ActiveVertex = some av → vhit p (vpos s av) = false → s.r3_mode = false →
      ((drawing_setup s p av).1.Vertices.find? (fun w2 =>
          isEndpoint (drawing_setup s p av).1.gview w2 &&
          vhit p (vpos (drawing_setup s p av).1 w2))).isSome = true →
      generic_arrow (drawing_setup s p av).1.gview (drawing_setup s p av).1.Crossings
          (some (drawing_setup s p av).2.1) = true →
      hitVertex (drawing_setup s p av).1.gview p = some w →
      ∃ t2, single_click_drawing s p = Except.ok t2 ∧ t2.r3_helper_tuple = none) := by
  refine ⟨uc_helper, ?_, ?_⟩
  · intro s ta c hr hc
    exact uc_run_mem_of_helper s.gview s.under_mode s.r3_helper_tuple ta s.Crossings c hr hc
  · intro s p av w ha hnc hr3 hfind hga hhit
    refine ⟨{ drawing_meld (drawing_setup s p av).1 av (drawing_setup s p av).2.1 w with
      r3_helper_tuple := none }, ?_, rfl⟩
    rw [drawing_click_nonr3 s p av ha hnc hr3 hfind, hga]
    have hneg : ¬((!true) = true) := by decide
    rw [if_neg hneg, hhit]

theorem C6_helper_flag_witness :
    (update_crossings ucState (some 0)).r3_helper_tuple = ucState.r3_helper_tuple ∧
    ((⟨1, 0, false⟩ : Crx) ∈ ucState.Crossings ∨ (⟨1, 0, false⟩ : Crx).under = 0) ∧
    (∃ t2, single_click_drawing meldOk ⟨100, 0⟩ = Except.ok t2 ∧
      t2.r3_helper_tuple = none) :=
  ⟨C6_helper_flag.1 ucState (some 0),
   C6_helper_flag.2.1 ucState 0 ⟨1, 0, false⟩ rfl (by decide),
   C6_helper_flag.2.2 meldOk ⟨100, 0⟩ 0 2 rfl (by decide) rfl (by decide) (by decide)
     (by decide)⟩

/-- C10: a plain single click on a crossing outside every special mode
(no vertex hit, not locked, r1 and r2 off) only rewrites the hit
crossing: a virtual crossing has its flag cleared with the over/under
designation kept, a non-virtual crossing has its over/under reversed
with the flag kept False, every other field of the state is untouched,
and no crossing of the post-click list is virtual unless it already was;
the virtual flag is turned on only by a shift click, which toggles it. -/
theorem C10_plain_click_virtual :
    (∀ (s : DState) (p : Pt) (ci : Nat) (c : Crx),
      hitVertex s.gview p = none → s.lock_var = false →
      crossIndex s.gview s.Crossings p = some ci →
      s.r1_mode = false → s.r2_mode = false →
      s.Crossings.get? ci = some c →
      single_click_start s p = Except.ok (plain_cross_click s ci) ∧
      (plain_cross_click s ci).Vertices = s.Vertices ∧
      (plain_cross_click s ci).Arrows = s.Arrows ∧
      (c.is_virtual = true →
        (plain_cross_click s ci).Crossings = s.Crossings.set ci ⟨c.over, c.under, false⟩) ∧
      (c.is_virtual = false →
        (plain_cross_click s ci).Crossings = s.Crossings.set ci ⟨c.under, c.over, false⟩) ∧
      (∀ d ∈ (plain_cross_click s ci).Crossings, d ∈ s.Crossings ∨ d.is_virtual = false)) ∧
    (∀ (t : DState) (q : Pt) (j : Nat) (d : Crx), t.lock_var = false →
      crossIndex t.gview t.Crossings q = some j → t.Crossings.get? j = some d →
      shift_click t q =
        { t with Crossings := t.Crossings.set j { d with is_virtual := !d.is_virtual } }) := by
  constructor
  · intro s p ci c hv hl hx h1 h2 hc
    have e0 : single_click_start s p = Except.ok (plain_cross_click s ci) := by
      have hln : ¬(s.lock_var = true) := by
        rw [hl]
        exact Bool.false_ne_true
      have h1n : ¬(s.r1_mode = true) := by
        rw [h1]
        exact Bool.false_ne_true
      have h2n : ¬(s.r2_mode = true) := by
        rw [h2]
        exact Bool.false_ne_true
      unfold single_click_start
      simp only [hv]
      rw [if_neg hln]
      simp only [hx]
      rw [if_neg h1n, if_neg h2n]
    have e1 : plain_cross_click s ci = { s with
        Crossings := s.Crossings.set ci (if c.is_virtual then { c with is_virtual := false } else reverseCrx c) } := by
      unfold plain_cross_click
      rw [hc]
    refine ⟨e0, by rw [e1], by rw [e1], ?_, ?_, ?_⟩
    · intro hcv
      rw [e1, hcv]
      rfl
    · intro hcv
      rw [e1, hcv]
      rw [if_neg Bool.false_ne_true]
      rw [show reverseCrx c = ⟨c.under, c.over, c.is_virtual⟩ from rfl, hcv]
    · intro d hd
      rw [e1] at hd
      rcases List.mem_or_eq_of_mem_set hd with h | h
      · exact Or.inl h
      · right
        rw [h]
        cases hcv : c.is_virtual
        · simp [hcv, reverseCrx]
        · simp [hcv]
  · intro t q j d hl hx hd
    have hln : ¬(t.lock_var = true) := by
      rw [hl]
      exact Bool.false_ne_true
    unfold shift_click
    rw [if_neg hln]
    simp only [hx, hd]

theorem C10_plain_click_virtual_witness :
    (single_click_start xState ⟨50, 0⟩ = Except.ok (plain_cross_click xState 0) ∧
     (plain_cross_click xState 0).Vertices = xState.Vertices ∧
     (plain_cross_click xState 0).Arrows = xState.Arrows ∧
     ((⟨1, 0, false⟩ : Crx).is_virtual = true →
       (plain_cross_click xState 0).Crossings = xState.Crossings.set 0 ⟨1, 0, false⟩) ∧
     ((⟨1, 0, false⟩ : Crx).is_virtual = false →
       (plain_cross_click xState 0).Crossings = xState.Crossings.set 0 ⟨0, 1, false⟩) ∧
     (∀ d ∈ (plain_cross_click xState 0).Crossings,
       d ∈ xState.Crossings ∨ d.is_virtual = false)) ∧
    shift_click xState ⟨50, 0⟩ =
      { xState with Crossings := xState.Crossings.set 0 ⟨1, 0, true⟩ } :=
  ⟨C10_plain_click_virtual.1 xState ⟨50, 0⟩ 0 ⟨1, 0, false⟩ (by decide) rfl (by decide)
     rfl rfl rfl,
   C10_plain_click_virtual.2 xState ⟨50, 0⟩ 0 ⟨1, 0, false⟩ rfl (by decide) rfl⟩

theorem isSome_ite_pair {A : Prop} [inst : Decidable A] (x y : ℚ × Pt) :
    (if A then some x else none).isSome = (if A then some y else none).isSome := by
  by_cases h : A <;> simp [h]

theorem properInt_symm (verts : List Pt) (p1 p2 q1 q2 : Pt) :
    (properInt verts q1 q2 p1 p2).isSome = (properInt verts p1 p2 q1 q2).isSome := by
  unfold properInt
  rcases eq_or_ne (crossProd (psub p2 p1) (psub q2 q1)) 0 with hd | hd
  · have hd2 : crossProd (psub q2 q1) (psub p2 p1) = 0 := by
      unfold crossProd psub at hd ⊢
      linear_combination -hd
    rw [if_pos hd, if_pos hd2]
  · have hd2 : crossProd (psub q2 q1) (psub p2 p1) ≠ 0 := by
      intro h
      apply hd
      unfold crossProd psub at h ⊢
      linear_combination -h
    rw [if_neg hd, if_neg hd2]
    have ht : crossProd (psub p1 q1) (psub p2 p1) / crossProd (psub q2 q1) (psub p2 p1) =
        crossProd (psub q1 p1) (psub p2 p1) / crossProd (psub p2 p1) (psub q2 q1) := by
      rw [div_eq_div_iff hd2 hd]
      unfold crossProd psub
      ring
    have hu : crossProd (psub p1 q1) (psub q2 q1) / crossProd (psub q2 q1) (psub p2 p1) =
        crossProd (psub q1 p1) (psub q2 q1) / crossProd (psub p2 p1) (psub q2 q1) := by
      rw [div_eq_div_iff hd2 hd]
      unfold crossProd psub
      ring
    rw [ht, hu]
    set t := crossProd (psub q1 p1) (psub q2 q1) / crossProd (psub p2 p1) (psub q2 q1) with hT
    set u := crossProd (psub q1 p1) (psub p2 p1) / crossProd (psub p2 p1) (psub q2 q1) with hU
    have hx : q1.x + u * (q2.x - q1.x) = p1.x + t * (p2.x - p1.x) := by
      rw [hT, hU]
      unfold crossProd psub at hd ⊢
      field_simp
      ring
    have hy : q1.y + u * (q2.y - q1.y) = p1.y + t * (p2.y - p1.y) := by
      rw [hT, hU]
      unfold crossProd psub at hd ⊢
      field_simp
      ring
    unfold pintAux
    rw [hx, hy]
    by_cases hc : 0 < t ∧ t < 1 ∧ 0 < u ∧ u < 1
    · have hcL : 0 < u ∧ u < 1 ∧ 0 < t ∧ t < 1 := ⟨hc.2.2.1, hc.2.2.2, hc.1, hc.2.1⟩
      rw [if_pos hcL, if_pos hc]
      exact isSome_ite_pair _ _
    · have hcL : ¬(0 < u ∧ u < 1 ∧ 0 < t ∧ t < 1) :=
        fun h => hc ⟨h.2.2.1, h.2.2.2, h.1, h.2.1⟩
      rw [if_neg hcL, if_neg hc]

theorem properInt_degen_left (verts : List Pt) (p q1 q2 : Pt) :
    properInt verts p p q1 q2 = none := by
  unfold properInt
  rw [if_pos (show crossProd (psub p p) (psub q2 q1) = 0 by unfold crossProd psub; ring)]

theorem properInt_degen_right (verts : List Pt) (p1 p2 q : Pt) :
    properInt verts p1 p2 q q = none := by
  unfold properInt
  rw [if_pos (show crossProd (psub p2 p1) (psub q q) = 0 by unfold crossProd psub; ring)]

theorem interAG_symm (g : GView) (A B : Arr) :
    (interAG g A B).isSome = (interAG g B A).isSome := by
  unfold interAG
  exact properInt_symm _ _ _ _ _

theorem pairProper_symm (g : GView) (i j : Nat) : pairProper g i j ↔ pairProper g j i := by
  unfold pairProper
  rw [interAG_symm]

theorem cEq_refl (c : Crx) : cEq c c = true := by
  simp [cEq]

theorem cEq_symm (c d : Crx) : cEq c d = cEq d c := by
  rw [Bool.eq_iff_iff]
  simp only [cEq, Bool.or_eq_true, Bool.and_eq_true, beq_iff_eq]
  constructor <;> rintro (⟨h1, h2⟩ | ⟨h1, h2⟩)
  · exact Or.inl ⟨h1.symm, h2.symm⟩
  · exact Or.inr ⟨h2.symm, h1.symm⟩
  · exact Or.inl ⟨h1.symm, h2.symm⟩
  · exact Or.inr ⟨h2.symm, h1.symm⟩

theorem cEq_pair_iff (c : Crx) (i j : Nat) (v : Bool) :
    cEq c ⟨i, j, v⟩ = true ↔ (c.over = i ∧ c.under = j) ∨ (c.over = j ∧ c.under = i) := by
  simp [cEq]

theorem hasPairB_mono (cs ds : List Crx) (i j : Nat)
    (hsub : ∀ c ∈ cs, c ∈ ds) (h : hasPairB cs i j = true) : hasPairB ds i j = true := by
  unfold hasPairB at h ⊢
  rcases List.any_eq_true.mp h with ⟨c, hm, hc⟩
  exact List.any_eq_true.mpr ⟨c, hsub c hm, hc⟩

theorem getAD_of_lookA (g : GView) (ta : Nat) (A : Arr)
    (h : lookA g.astore ta = some A) : getAD g ta = A := by
  unfold getAD getAG
  rw [h]
  rfl

theorem uc_step_inv (g : GView) (n ta : Nat) (A : Arr) (cl cs : List Crx) (aid : Nat)
    (hA : lookA g.astore ta = some A) (hta : ta < n) (haid : aid < n)
    (hgood : ∀ c ∈ cs, goodCrx g n c)
    (hcl : ∀ c ∈ cl, c ∈ cs) :
    (∀ c ∈ cs, c ∈ uc_step g false none ta A cl cs aid) ∧
    (∀ c ∈ uc_step g false none ta A cl cs aid,
      goodCrx g n c ∧ (c ∈ cs ∨ c = ⟨ta, aid, false⟩)) ∧
    (aid ≠ ta → pairProper g ta aid →
      hasPairB (uc_step g false none ta A cl cs aid) ta aid = true) := by
  have hstep : uc_step g false none ta A cl cs aid =
      (if aid = ta then cs
       else match interAG g A (getAD g aid) with
         | some _ =>
           if cl.any (cEq ⟨ta, aid, false⟩) then cs else cs ++ [⟨ta, aid, false⟩]
         | none =>
           if cs.any (cEq ⟨ta, aid, false⟩) then removeFirstP (cEq ⟨ta, aid, false⟩) cs
           else cs) := by
    unfold uc_step
    rfl
  rw [hstep]
  by_cases he : aid = ta
  · rw [if_pos he]
    exact ⟨fun c hc => hc, fun c hc => ⟨hgood c hc, Or.inl hc⟩, fun hne _ => absurd he hne⟩
  · rw [if_neg he]
    cases hint : interAG g A (getAD g aid) with
    | none =>
      have hnp : ¬ pairProper g ta aid := by
        unfold pairProper
        rw [getAD_of_lookA g ta A hA, hint]
        simp
      have hanyf : cs.any (cEq ⟨ta, aid, false⟩) = false := by
        cases hval : cs.any (cEq ⟨ta, aid, false⟩) with
        | false => rfl
        | true =>
          exfalso
          rcases List.any_eq_true.mp hval with ⟨c, hm, hc⟩
          rw [cEq_symm] at hc
          rcases (cEq_pair_iff c ta aid false).mp hc with ⟨h1, h2⟩ | ⟨h1, h2⟩
          · have hx := (hgood c hm).2.2.2
            rw [h1, h2] at hx
            exact hnp hx
          · have hx := (hgood c hm).2.2.2
            rw [h1, h2] at hx
            exact hnp ((pairProper_symm g aid ta).mp hx)
      rw [hanyf, if_neg Bool.false_ne_true]
      exact ⟨fun c hc => hc, fun c hc => ⟨hgood c hc, Or.inl hc⟩,
        fun hne hp => absurd hp hnp⟩
    | some tp =>
      by_cases hclany : cl.any (cEq ⟨ta, aid, false⟩) = true
      · rw [if_pos hclany]
        refine ⟨fun c hc => hc, fun c hc => ⟨hgood c hc, Or.inl hc⟩, fun hne hp => ?_⟩
        rcases List.any_eq_true.mp hclany with ⟨c, hm, hc⟩
        unfold hasPairB
        refine List.any_eq_true.mpr ⟨c, hcl c hm, ?_⟩
        rw [cEq_symm] at hc
        exact hc
      · rw [if_neg hclany]
        refine ⟨fun c hc => List.mem_append_left _ hc, ?_, ?_⟩
        · intro c hc
          rcases List.mem_append.mp hc with h | h
          · exact ⟨hgood c h, Or.inl h⟩
          · rcases List.mem_singleton.mp h with rfl
            refine ⟨⟨hta, haid, fun hh => he hh.symm, ?_⟩, Or.inr rfl⟩
            unfold pairProper
            rw [getAD_of_lookA g ta A hA, hint]
            rfl
        · intro hne hp
          unfold hasPairB
          exact List.any_eq_true.mpr ⟨⟨ta, aid, false⟩,
            List.mem_append_right _ (List.mem_singleton.mpr rfl), cEq_refl _⟩

theorem uc_scan_inv (g : GView) (n ta : Nat) (A : Arr) (cl : List Crx)
    (hA : lookA g.astore ta = some A) (hta : ta < n) :
    ∀ (L : List Nat) (cs : List Crx),
      (∀ aid ∈ L, aid < n) →
      (∀ c ∈ cs, goodCrx g n c) →
      (∀ c ∈ cl, c ∈ cs) →
      (∀ c ∈ cs, c ∈ L.foldl (uc_step g false none ta A cl) cs) ∧
      (∀ c ∈ L.foldl (uc_step g false none ta A cl) cs,
        goodCrx g n c ∧ (c ∈ cs ∨ c.over = ta)) ∧
      (∀ aid ∈ L, aid ≠ ta → pairProper g ta aid →
        hasPairB (L.foldl (uc_step g false none ta A cl) cs) ta aid = true) := by
  intro L
  induction L with
  | nil =>
    intro cs hL hgood hcl
    exact ⟨fun c hc => hc, fun c hc => ⟨hgood c hc, Or.inl hc⟩,
      fun aid h => absurd h (List.not_mem_nil aid)⟩
  | cons aid L ih =>
    intro cs hL hgood hcl
    have haid : aid < n := hL aid (List.mem_cons_self _ _)
    obtain ⟨m1, g1, cov1⟩ := uc_step_inv g n ta A cl cs aid hA hta haid hgood hcl
    have hgood1 : ∀ c ∈ uc_step g false none ta A cl cs aid, goodCrx g n c :=
      fun c hc => (g1 c hc).1
    have hcl1 : ∀ c ∈ cl, c ∈ uc_step g false none ta A cl cs aid :=
      fun c hc => m1 c (hcl c hc)
    have hL1 : ∀ a2 ∈ L, a2 < n := fun a2 h => hL a2 (List.mem_cons_of_mem _ h)
    obtain ⟨m2, g2, cov2⟩ := ih (uc_step g false none ta A cl cs aid) hL1 hgood1 hcl1
    rw [List.foldl_cons]
    refine ⟨fun c hc => m2 c (m1 c hc), ?_, ?_⟩
    · intro c hc
      rcases g2 c hc with ⟨hgc, hor⟩
      rcases hor with h | h
      · rcases g1 c h with ⟨_, hor2⟩
        rcases hor2 with h2 | h2
        · exact ⟨hgc, Or.inl h2⟩
        · exact ⟨hgc, Or.inr (by rw [h2])⟩
      · exact ⟨hgc, Or.inr h⟩
    · intro a2 ha2 hne hp
      rcases List.mem_cons.mp ha2 with h | h
      · subst h
        exact hasPairB_mono _ _ ta a2 m2 (cov1 hne hp)
      · exact cov2 a2 h hne hp

theorem uc_run_inv (g : GView) (n ta : Nat)
    (hal : g.alist = List.range n)
    (hta : ta < n) (A : Arr) (hA : lookA g.astore ta = some A)
    (cs : List Crx) (hgood : ∀ c ∈ cs, goodCrx g n c) :
    (∀ c ∈ cs, c ∈ uc_run g false none ta cs) ∧
    (∀ c ∈ uc_run g false none ta cs, goodCrx g n c ∧ (c ∈ cs ∨ c.over = ta)) ∧
    (∀ aid, aid < n → aid ≠ ta → pairProper g ta aid →
      hasPairB (uc_run g false none ta cs) ta aid = true) := by
  have hrun : uc_run g false none ta cs =
      g.alist.foldl (uc_step g false none ta A (cs.filter (cmem ta))) cs := by
    unfold uc_run
    rw [hA]
  rw [hrun, hal]
  have hcl : ∀ c ∈ cs.filter (cmem ta), c ∈ cs := fun c hc => (List.mem_filter.mp hc).1
  have hL : ∀ aid ∈ List.range n, aid < n := fun aid h => List.mem_range.mp h
  obtain ⟨m, gg, cov⟩ :=
    uc_scan_inv g n ta A (cs.filter (cmem ta)) hA hta (List.range n) cs hL hgood hcl
  exact ⟨m, gg, fun aid h1 h2 h3 => cov aid (List.mem_range.mpr h1) h2 h3⟩

theorem uc_multi_run_inv (g : GView) (n : Nat)
    (hal : g.alist = List.range n)
    (hcomp : ∀ a, a < n → ∃ A, lookA g.astore a = some A) :
    ∀ (T : List Nat) (cs : List Crx),
      (∀ t2 ∈ T, t2 < n) →
      (∀ c ∈ cs, goodCrx g n c) →
      (∀ c ∈ cs, c ∈ T.foldl (fun cs2 a => uc_run g false none a cs2) cs) ∧
      (∀ c ∈ T.foldl (fun cs2 a => uc_run g false none a cs2) cs, goodCrx g n c) ∧
      (∀ ta ∈ T, ∀ aid, aid < n → aid ≠ ta → pairProper g ta aid →
        hasPairB (T.foldl (fun cs2 a => uc_run g false none a cs2) cs) ta aid = true) := by
  intro T
  induction T with
  | nil =>
    intro cs hT hgood
    exact ⟨fun c hc => hc, hgood, fun ta h => absurd h (List.not_mem_nil ta)⟩
  | cons ta T ih =>
    intro cs hT hgood
    have hta : ta < n := hT ta (List.mem_cons_self _ _)
    obtain ⟨A, hA⟩ := hcomp ta hta
    obtain ⟨m1, g1, cov1⟩ := uc_run_inv g n ta hal hta A hA cs hgood
    have hgood1 : ∀ c ∈ uc_run g false none ta cs, goodCrx g n c :=
      fun c hc => (g1 c hc).1
    have hT1 : ∀ t2 ∈ T, t2 < n := fun t2 h => hT t2 (List.mem_cons_of_mem _ h)
    obtain ⟨m2, g2, cov2⟩ := ih (uc_run g false none ta cs) hT1 hgood1
    rw [List.foldl_cons]
    refine ⟨fun c hc => m2 c (m1 c hc), g2, ?_⟩
    intro ta2 hta2 aid haid hne hp
    rcases List.mem_cons.mp hta2 with h | h
    · subst h
      exact hasPairB_mono _ _ ta2 aid m2 (cov1 aid haid hne hp)
    · exact cov2 ta2 h aid haid hne hp

theorem fold_uc_state (T : List Nat) :
    ∀ (s : DState),
      T.foldl (fun st a => update_crossings st (some a)) s =
        { s with Crossings := T.foldl (fun cs a => uc_run s.gview s.under_mode s.r3_helper_tuple a cs) s.Crossings } := by
  induction T with
  | nil =>
    intro s
    rfl
  | cons a T ih =>
    intro s
    rw [List.foldl_cons, List.foldl_cons, ih]
    rfl

theorem lookA_enumFrom_map {α β : Type} (f : Nat → α → β) :
    ∀ (l : List α) (k i : Nat),
      lookA ((List.enumFrom k l).map (fun pr => (pr.1, f pr.1 pr.2))) (k + i) =
        (l.get? i).map (f (k + i)) := by
  intro l
  induction l with
  | nil =>
    intro k i
    rfl
  | cons a l ih =>
    intro k i
    cases i with
    | zero =>
      simp [List.enumFrom, lookA]
    | succ i =>
      have hne : k ≠ k + (i + 1) := by omega
      have e : lookA ((List.enumFrom k (a :: l)).map
            (fun pr => (pr.1, f pr.1 pr.2))) (k + (i + 1)) =
          lookA ((List.enumFrom (k + 1) l).map
            (fun pr => (pr.1, f pr.1 pr.2))) (k + (i + 1)) := by
        show (if k = k + (i + 1) then some (f k a) else _) = _
        rw [if_neg hne]
      rw [e, show k + (i + 1) = (k + 1) + i by omega, ih (k + 1) i]
      simp

theorem lookA_enum_map {α β : Type} (f : Nat → α → β) (l : List α) (i : Nat) :
    lookA (l.enum.map (fun pr => (pr.1, f pr.1 pr.2))) i = (l.get? i).map (f i) := by
  have h := lookA_enumFrom_map f l 0 i
  rw [Nat.zero_add] at h
  exact h

theorem idxOf_range_go : ∀ (len start v : Nat), start ≤ v → v < start + len →
    idxOf (List.range' start len) v = v - start := by
  intro len
  induction len with
  | zero =>
    intro start v h1 h2
    omega
  | succ len ih =>
    intro start v h1 h2
    rw [List.range'_succ]
    unfold idxOf
    by_cases he : start = v
    · rw [if_pos he]
      omega
    · rw [if_neg he]
      rw [ih (start + 1) v (by omega) (by omega)]
      omega

theorem idxOf_range (m v : Nat) (h : v < m) : idxOf (List.range m) v = v := by
  rw [List.range_eq_range', idxOf_range_go m 0 v (Nat.zero_le v) (by omega)]
  omega

theorem lookA_setA_pos (l : List (Nat × Vtx)) (k i : Nat) (f : Vtx → Vtx)
    (hf : ∀ d, (f d).pos = d.pos) :
    (lookA (setA l k f) i).map Vtx.pos = (lookA l i).map Vtx.pos := by
  by_cases h : k = i
  · subst h
    rw [lookA_setA_self]
    cases lookA l k <;> simp [hf]
  · rw [lookA_setA_ne l k i f h]

theorem relink_pos (L : List (Nat × Nat × Nat × Nat)) :
    ∀ (st : List (Nat × Vtx)) (i : Nat),
      (lookA (L.foldl (fun st2 pr =>
        setA (setA st2 pr.2.1 (fun d => { d with out_arrow := some pr.1 }))
          pr.2.2.1 (fun d => { d with in_arrow := some pr.1 })) st) i).map Vtx.pos =
      (lookA st i).map Vtx.pos := by
  induction L with
  | nil =>
    intro st i
    rfl
  | cons pr L ih =>
    intro st i
    rw [List.foldl_cons, ih]
    rw [lookA_setA_pos _ pr.2.2.1 i
        (fun d => { d with in_arrow := some pr.1 }) (fun d => rfl)]
    rw [lookA_setA_pos st pr.2.1 i
        (fun d => { d with out_arrow := some pr.1 }) (fun d => rfl)]

theorem unpickle_eq (pd : Pickled) :
    unpickle pd = { unpickleBase pd with
      Crossings := (List.range pd.parrows.length).foldl
        (fun cs a => uc_run (unpickleBase pd).gview false none a cs) [] } := by
  show (List.range pd.parrows.length).foldl (fun st a => update_crossings st (some a))
      (unpickleBase pd) = _
  rw [fold_uc_state]
  rfl

theorem unpickleBase_astore (pd : Pickled) (a : Nat) :
    lookA (unpickleBase pd).astore a =
      (pd.parrows.get? a).map (fun v => Arr.mk v.1 v.2.1 v.2.2) :=
  lookA_enum_map (fun _ (v : Nat × Nat × Nat) => Arr.mk v.1 v.2.1 v.2.2) pd.parrows a

theorem unpickleBase_comp (pd : Pickled) (a : Nat) (h : a < pd.parrows.length) :
    ∃ A, lookA (unpickleBase pd).astore a = some A := by
  rw [unpickleBase_astore]
  cases hga : pd.parrows.get? a with
  | none =>
    exfalso
    rw [List.get?_eq_none] at hga
    omega
  | some v =>
    exact ⟨Arr.mk v.1 v.2.1 v.2.2, rfl⟩

theorem properPairB_of_pairProper (g : GView) (i j : Nat)
    (hi : ∃ A, lookA g.astore i = some A) (hj : ∃ B, lookA g.astore j = some B)
    (hp : pairProper g i j) : properPairB g i j = true := by
  obtain ⟨A, hA⟩ := hi
  obtain ⟨B, hB⟩ := hj
  have h1 : getAG g i = some A := hA
  have h2 : getAG g j = some B := hB
  unfold properPairB
  simp only [h1, h2]
  unfold pairProper at hp
  rw [getAD_of_lookA g i A hA, getAD_of_lookA g j B hB] at hp
  rw [hp]
  rfl

theorem pairProper_of_properPairB (g : GView) (i j : Nat)
    (hp : properPairB g i j = true) : pairProper g i j := by
  unfold properPairB at hp
  cases hA : getAG g i with
  | none =>
    simp only [hA] at hp
    exact absurd hp Bool.false_ne_true
  | some A =>
    cases hB : getAG g j with
    | none =>
      simp only [hA, hB] at hp
      exact absurd hp Bool.false_ne_true
    | some B =>
      simp only [hA, hB] at hp
      unfold pairProper
      rw [getAD_of_lookA g i A hA, getAD_of_lookA g j B hB]
      rw [Bool.or_eq_true] at hp
      rcases hp with h | h
      · exact h
      · rw [← interAG_symm] at h
        exact h

theorem unpickle_exact (pd : Pickled) : crossingsExactB (unpickle pd) = true := by
  have hal : (unpickleBase pd).gview.alist = List.range pd.parrows.length := rfl
  have hcomp : ∀ a, a < pd.parrows.length →
      ∃ A, lookA (unpickleBase pd).gview.astore a = some A :=
    fun a h => unpickleBase_comp pd a h
  obtain ⟨_, hgood, hcov⟩ := uc_multi_run_inv (unpickleBase pd).gview pd.parrows.length
    hal hcomp (List.range pd.parrows.length) []
    (fun t2 h => List.mem_range.mp h) (fun c hc => absurd hc (List.not_mem_nil c))
  have hCr : (unpickle pd).Crossings = (List.range pd.parrows.length).foldl
      (fun cs a => uc_run (unpickleBase pd).gview false none a cs) [] := by
    rw [unpickle_eq pd]
  have hAr : (unpickle pd).Arrows = List.range pd.parrows.length := by
    rw [unpickle_eq pd]
    rfl
  have hgv : (unpickle pd).gview = (unpickleBase pd).gview := by
    rw [unpickle_eq pd]
    rfl
  unfold crossingsExactB
  rw [hCr, hAr, hgv, Bool.and_eq_true]
  constructor
  · rw [List.all_eq_true]
    intro c hc
    obtain ⟨h1, h2, h3, h4⟩ := hgood c hc
    simp only [Bool.and_eq_true]
    refine ⟨⟨⟨?_, ?_⟩, ?_⟩, ?_⟩
    · exact List.elem_eq_true_of_mem (List.mem_range.mpr h1)
    · exact List.elem_eq_true_of_mem (List.mem_range.mpr h2)
    · exact bne_iff_ne.mpr h3
    · exact properPairB_of_pairProper _ c.over c.under (hcomp _ h1) (hcomp _ h2) h4
  · rw [List.all_eq_true]
    intro i hi
    rw [List.all_eq_true]
    intro j hj
    by_cases hij : i = j
    · simp [hij]
    · rw [show (i == j) = false from beq_eq_false_iff_ne.mpr hij, if_neg Bool.false_ne_true]
      by_cases hp : properPairB (unpickleBase pd).gview i j = true
      · rw [if_pos hp]
        exact hcov i (hAr ▸ hi) j (List.mem_range.mp (hAr ▸ hj)) (fun h => hij h.symm)
          (pairProper_of_properPairB _ i j hp)
      · rw [if_neg hp]

theorem unpickle_good (pd : Pickled) :
    ∀ c ∈ (unpickle pd).Crossings, goodCrx (unpickleBase pd).gview pd.parrows.length c := by
  have hCr : (unpickle pd).Crossings = (List.range pd.parrows.length).foldl
      (fun cs a => uc_run (unpickleBase pd).gview false none a cs) [] := by
    rw [unpickle_eq pd]
  rw [hCr]
  exact (uc_multi_run_inv (unpickleBase pd).gview pd.parrows.length rfl
    (fun a h => unpickleBase_comp pd a h) (List.range pd.parrows.length) []
    (fun t2 h => List.mem_range.mp h) (fun c hc => absurd hc (List.not_mem_nil c))).2.1

theorem unpickle_cov (pd : Pickled) (i j : Nat) (hi : i < pd.parrows.length)
    (hj : j < pd.parrows.length) (hij : i ≠ j)
    (hp : pairProper (unpickleBase pd).gview i j) :
    hasPairB (unpickle pd).Crossings i j = true := by
  have hCr : (unpickle pd).Crossings = (List.range pd.parrows.length).foldl
      (fun cs a => uc_run (unpickleBase pd).gview false none a cs) [] := by
    rw [unpickle_eq pd]
  rw [hCr]
  exact (uc_multi_run_inv (unpickleBase pd).gview pd.parrows.length rfl
    (fun a h => unpickleBase_comp pd a h) (List.range pd.parrows.length) []
    (fun t2 h => List.mem_range.mp h) (fun c hc => absurd hc (List.not_mem_nil c))).2.2
    i (List.mem_range.mpr hi) j hj (fun h => hij h.symm) hp

theorem interAG_degen_left (g : GView) (v c : Nat) (B : Arr) :
    interAG g (Arr.mk v v c) B = none := by
  unfold interAG
  exact properInt_degen_left _ _ _ _

theorem interAG_degen_right (g : GView) (A : Arr) (v c : Nat) :
    interAG g A (Arr.mk v v c) = none := by
  unfold interAG
  exact properInt_degen_right _ _ _ _

theorem pairProper_getAG_left (g : GView) (i j : Nat) (hp : pairProper g i j) :
    ∃ A, getAG g i = some A := by
  cases hA : getAG g i with
  | none =>
    exfalso
    unfold pairProper at hp
    have hd : getAD g i = Arr.mk 0 0 0 := by
      unfold getAD
      rw [hA]
      rfl
    rw [hd, interAG_degen_left] at hp
    exact absurd hp (by simp)
  | some A =>
    exact ⟨A, rfl⟩

theorem pairProper_getAG_right (g : GView) (i j : Nat) (hp : pairProper g i j) :
    ∃ B, getAG g j = some B := by
  cases hB : getAG g j with
  | none =>
    exfalso
    unfold pairProper at hp
    have hd : getAD g j = Arr.mk 0 0 0 := by
      unfold getAD
      rw [hB]
      rfl
    rw [hd, interAG_degen_right] at hp
    exact absurd hp (by simp)
  | some B =>
    exact ⟨B, rfl⟩

theorem properPairB_iff_pairProper (g : GView) (i j : Nat) :
    properPairB g i j = true ↔ pairProper g i j := by
  constructor
  · exact pairProper_of_properPairB g i j
  · intro hp
    exact properPairB_of_pairProper g i j (pairProper_getAG_left g i j hp)
      (pairProper_getAG_right g i j hp) hp

theorem cEq_of_pair (c d : Crx)
    (h : (d.over = c.over ∧ d.under = c.under) ∨ (d.over = c.under ∧ d.under = c.over)) :
    cEq c d = true := by
  rcases h with ⟨h1, h2⟩ | ⟨h1, h2⟩ <;> simp [cEq, h1, h2]

theorem unpickle_vpos (s : DState) (m : Nat) (hV : s.Vertices = List.range m)
    (i : Nat) (hi : i < m) :
    vposG (unpickleBase (pickle s)).gview i = vposG s.gview i := by
  have h1 : (lookA (unpickleBase (pickle s)).vstore i).map Vtx.pos =
      (lookA ((pickle s).pverts.enum.map
        (fun pr => (pr.1, Vtx.mk pr.2.1 pr.2.2 none none))) i).map Vtx.pos :=
    relink_pos _ _ i
  have h2 : lookA ((pickle s).pverts.enum.map
      (fun pr => (pr.1, Vtx.mk pr.2.1 pr.2.2 none none))) i =
      ((pickle s).pverts.get? i).map (fun v => Vtx.mk v.1 v.2 none none) :=
    lookA_enum_map (fun _ (v : Pt × Nat) => Vtx.mk v.1 v.2 none none) (pickle s).pverts i
  have h3 : (pickle s).pverts.get? i = some (vposG s.gview i, (getV s i).color) := by
    show (s.Vertices.map (fun v => (vpos s v, (getV s v).color))).get? i = _
    rw [List.get?_map, hV, List.get?_range hi]
    rfl
  rw [h2, h3] at h1
  simp only [Option.map] at h1
  cases hl : lookA (unpickleBase (pickle s)).vstore i with
  | none =>
    rw [hl] at h1
    simp at h1
  | some d =>
    rw [hl] at h1
    simp only [Option.map] at h1
    have hdp : d.pos = vposG s.gview i := by
      injection h1
    show ((lookA (unpickleBase (pickle s)).vstore i).getD ⟨⟨0, 0⟩, 0, none, none⟩).pos =
      vposG s.gview i
    rw [hl]
    exact hdp

theorem unpickle_arr (s : DState) (m n : Nat) (hV : s.Vertices = List.range m)
    (hA : s.Arrows = List.range n) (a : Nat) (han : a < n)
    (hend : (getAD s.gview a).astart < m ∧ (getAD s.gview a).aend < m) :
    getAD (unpickleBase (pickle s)).gview a =
      Arr.mk (getAD s.gview a).astart (getAD s.gview a).aend (getAD s.gview a).color := by
  have h2 : lookA (unpickleBase (pickle s)).astore a =
      ((pickle s).parrows.get? a).map (fun v => Arr.mk v.1 v.2.1 v.2.2) :=
    unpickleBase_astore (pickle s) a
  have h3 : (pickle s).parrows.get? a = some
      (idxOf s.Vertices (getAD s.gview a).astart, idxOf s.Vertices (getAD s.gview a).aend,
       (getAD s.gview a).color) := by
    show (s.Arrows.map (fun a2 =>
      (idxOf s.Vertices (getAD s.gview a2).astart, idxOf s.Vertices (getAD s.gview a2).aend,
       (getAD s.gview a2).color))).get? a = _
    rw [List.get?_map, hA, List.get?_range han]
    rfl
  show (lookA (unpickleBase (pickle s)).astore a).getD ⟨0, 0, 0⟩ = _
  rw [h2, h3]
  simp only [Option.map, Option.getD]
  rw [hV, idxOf_range m _ hend.1, idxOf_range m _ hend.2]

theorem unpickle_vertexPts (s : DState) (m : Nat) (hV : s.Vertices = List.range m) :
    vertexPts (unpickleBase (pickle s)).gview = vertexPts s.gview := by
  have hlen : (pickle s).pverts.length = m := by
    show (s.Vertices.map (fun v => (vpos s v, (getV s v).color))).length = m
    rw [List.length_map, hV, List.length_range]
  show (List.range (pickle s).pverts.length).map (vposG (unpickleBase (pickle s)).gview) =
      s.Vertices.map (vposG s.gview)
  rw [hlen, hV]
  exact List.map_congr_left (fun i hi => unpickle_vpos s m hV i (List.mem_range.mp hi))

theorem unpickle_pairProper (s : DState) (m n : Nat) (hV : s.Vertices = List.range m)
    (hA : s.Arrows = List.range n)
    (hend : ∀ a ∈ s.Arrows, (getAD s.gview a).astart < m ∧ (getAD s.gview a).aend < m)
    (i j : Nat) (hi : i < n) (hj : j < n) :
    pairProper (unpickleBase (pickle s)).gview i j ↔ pairProper s.gview i j := by
  have hAi := unpickle_arr s m n hV hA i hi (hend i (by rw [hA]; exact List.mem_range.mpr hi))
  have hAj := unpickle_arr s m n hV hA j hj (hend j (by rw [hA]; exact List.mem_range.mpr hj))
  have hei := hend i (by rw [hA]; exact List.mem_range.mpr hi)
  have hej := hend j (by rw [hA]; exact List.mem_range.mpr hj)
  unfold pairProper interAG
  rw [hAi, hAj]
  dsimp only
  rw [unpickle_vertexPts s m hV,
    unpickle_vpos s m hV _ hei.1, unpickle_vpos s m hV _ hei.2,
    unpickle_vpos s m hV _ hej.1, unpickle_vpos s m hV _ hej.2]

/-- C8 counterexample: the X diagram has the exact crossing list
[(over 1, under 0)]; its geometry-only round trip recomputes the
crossing with the default tie-break, storing (over 0, under 1): the
original crossing set is NOT reproduced exactly — only the unordered
pair survives, the over/under designation is lost. -/
theorem C8_counterexample :
    crossingsExactB xState = true ∧
    xState.Crossings = [⟨1, 0, false⟩] ∧
    (unpickle (pickle xState)).Crossings = [⟨0, 1, false⟩] ∧
    (unpickle (pickle xState)).Crossings ≠ xState.Crossings := by decide

/-- C8 as amended: for a diagram with positional handles (self.Vertices
and self.Arrows numbered 0..m-1 and 0..n-1) whose listed arrows end in
listed vertices and whose crossing list is exact, the geometry-only
round trip rebuilds a crossing list that is again exact for the reloaded
geometry, and that agrees with the original crossing list as a set of
unordered arrow pairs; the serialization itself never reads the crossing
list.  Exact reproduction of the crossing records fails in general,
because over/under designations are recomputed with the default
tie-break (see the counterexample). -/
theorem C8_roundtrip (s : DState) (m n : Nat)
    (hV : s.Vertices = List.range m) (hA : s.Arrows = List.range n)
    (hend : ∀ a ∈ s.Arrows, (getAD s.gview a).astart < m ∧ (getAD s.gview a).aend < m)
    (hexact : crossingsExactB s = true) :
    crossingsExactB (unpickle (pickle s)) = true ∧
    samePairsB (unpickle (pickle s)).Crossings s.Crossings = true ∧
    (∀ cs, pickle { s with Crossings := cs } = pickle s) := by
  have hn2 : (pickle s).parrows.length = n := by
    show (s.Arrows.map _).length = n
    rw [List.length_map, hA, List.length_range]
  unfold crossingsExactB at hexact
  rw [Bool.and_eq_true] at hexact
  obtain ⟨hex1, hex2⟩ := hexact
  refine ⟨unpickle_exact (pickle s), ?_, fun cs => rfl⟩
  unfold samePairsB
  rw [Bool.and_eq_true]
  constructor
  · rw [List.all_eq_true]
    intro c hc
    obtain ⟨h1, h2, h3, h4⟩ := unpickle_good (pickle s) c hc
    rw [hn2] at h1 h2
    have hps : pairProper s.gview c.over c.under :=
      (unpickle_pairProper s m n hV hA hend c.over c.under h1 h2).mp h4
    have hpb : properPairB s.gview c.over c.under = true :=
      (properPairB_iff_pairProper s.gview c.over c.under).mpr hps
    have hmem1 : c.over ∈ s.Arrows := by
      rw [hA]
      exact List.mem_range.mpr h1
    have hmem2 : c.under ∈ s.Arrows := by
      rw [hA]
      exact List.mem_range.mpr h2
    have hh := List.all_eq_true.mp (List.all_eq_true.mp hex2 c.over hmem1) c.under hmem2
    rw [show (c.over == c.under) = false from beq_eq_false_iff_ne.mpr h3,
      if_neg Bool.false_ne_true, if_pos hpb] at hh
    unfold hasPairB at hh
    rcases List.any_eq_true.mp hh with ⟨d, hd, hdEq⟩
    exact List.any_eq_true.mpr ⟨d, hd,
      cEq_of_pair c d ((cEq_pair_iff d c.over c.under false).mp hdEq)⟩
  · rw [List.all_eq_true]
    intro d hd
    have hh := List.all_eq_true.mp hex1 d hd
    simp only [Bool.and_eq_true] at hh
    obtain ⟨⟨⟨hc1, hc2⟩, hc3⟩, hc4⟩ := hh
    have h1 : d.over < n := by
      have := List.elem_iff.mp hc1
      rw [hA] at this
      exact List.mem_range.mp this
    have h2 : d.under < n := by
      have := List.elem_iff.mp hc2
      rw [hA] at this
      exact List.mem_range.mp this
    have h3 : d.over ≠ d.under := bne_iff_ne.mp hc3
    have hps : pairProper s.gview d.over d.under :=
      pairProper_of_properPairB s.gview d.over d.under hc4
    have hpu : pairProper (unpickleBase (pickle s)).gview d.over d.under :=
      (unpickle_pairProper s m n hV hA hend d.over d.under h1 h2).mpr hps
    have hcov := unpickle_cov (pickle s) d.over d.under (hn2 ▸ h1) (hn2 ▸ h2) h3 hpu
    unfold hasPairB at hcov
    rcases List.any_eq_true.mp hcov with ⟨e, he, heEq⟩
    exact List.any_eq_true.mpr ⟨e, he,
      cEq_of_pair d e ((cEq_pair_iff e d.over d.under false).mp heEq)⟩

theorem C8_roundtrip_witness :
    crossingsExactB (unpickle (pickle xState)) = true ∧
    samePairsB (unpickle (pickle xState)).Crossings xState.Crossings = true ∧
    (∀ cs, pickle { xState with Crossings := cs } = pickle xState) :=
  C8_roundtrip xState 4 2 (by decide) (by decide) (by decide) (by decide)

end PLink
